import Mathlib

/-!
# Verification of the galera pasture job queue (`galera_job_queue.c`)

This file is a shallow embedding of `src/galera/src/pasture/galera_job_queue.c`:
a bounded job-admission and conflict-ordering queue.  Machine `void *` values
(`ctx` handles) are modelled as `Nat` with `0` playing the role of `NULL`.  The
per-slot condition variables of the C code are modelled by an explicit
per-slot continuation (`ThreadSt`): a thread blocked in `gu_cond_wait` inside
`job_queue_start_job` is a `parkedCap`/`parkedConf` value recording exactly the
local state the C thread would hold (the `ctx` argument, and for the conflict
wait the loop index it parked at); `gu_cond_signal` sets the `woken` flag and
a woken continuation may later re-acquire the mutex and run its next atomic
segment.  The single queue mutex is held for every segment between parks, so
the segments are the atomic transitions of the `Step` relation.
-/

/-- The `job_state` enumeration of the queue (header `galera_job_queue.h`;
states as listed in the spec's data model and used throughout the C file). -/
inductive JobState where
  | JOB_VOID
  | JOB_IDLE
  | JOB_REGISTERED
  | JOB_WAIT_QUEUE_ENTER
  | JOB_WAIT_FOR_JOB
  | JOB_RUNNING
deriving DecidableEq, Repr

open JobState

/-- One `struct job_worker` (the per-slot `waiters` bitmap is kept separately
in `queue_state.waiters`, curried by slot id). `ctx : Nat` models the
`void *ctx` handle, `0` standing for `NULL`; `typ` models `enum job_type`. -/
structure job_worker where
  state : JobState
  ctx : Nat
  typ : Nat
deriving DecidableEq, Repr

/-- Continuation of a caller thread inside `job_queue_start_job`:
`done` means no thread of this slot is blocked in the queue;
`parkedCap c w` is the `gu_cond_wait` at the admission gate (line 172), holding
the pending `ctx` argument `c` (not yet stored in the slot) and signal flag `w`;
`parkedConf c p w` is the `gu_cond_wait` in the conflict scan (line 194), at
loop index `p`, with stored ctx `c` and signal flag `w`. -/
inductive ThreadSt where
  | done
  | parkedCap (c : Nat) (w : Bool)
  | parkedConf (c : Nat) (p : Nat) (w : Bool)
deriving DecidableEq, Repr

/-- The immutable part of `struct job_queue`: the compile-time capacity
`MAX_WORKERS`, the admission ceiling, and the two caller-supplied callbacks
(`void *` arguments modelled as `Nat`). -/
structure queue_config where
  MAX_WORKERS : Nat
  max_concurrent_workers : Nat
  conflict_test : Nat → Nat → Bool
  job_cmp_order : Nat → Nat → Int

/-- The mutable part of `struct job_queue` plus the thread continuations.
`jobs i` is `queue->jobs[i]`; `waiters j i` is `queue->jobs[j].waiters[i]`;
`threads i` is the continuation of the caller thread driving slot `i`. -/
structure queue_state where
  active_workers : Nat
  registered_workers : Nat
  jobs : Nat → job_worker
  waiters : Nat → Nat → Bool
  threads : Nat → ThreadSt

/-- Point update of a function map. -/
def updF {α : Type} (f : Nat → α) (i : Nat) (a : α) : Nat → α :=
  fun j => if j = i then a else f j

/-- `WSDB_OK`, the success return code. -/
def WSDB_OK : Int := 0

/-- `init_worker`: state `JOB_VOID`, `ctx = NULL`. -/
def init_worker : job_worker := { state := JOB_VOID, ctx := 0, typ := 0 }

/-- `job_queue_create` (lines 48-71): clamps the requested concurrency to
`MAX_WORKERS` and initializes every slot `JOB_VOID` with empty waiter bitmap.
`MW` is the compile-time constant `MAX_WORKERS`. -/
def job_queue_create (MW : Nat) (max_workers : Nat)
    (conflict_test : Nat → Nat → Bool) (cmp_order : Nat → Nat → Int) :
    queue_config × queue_state :=
  ({ MAX_WORKERS := MW
   , max_concurrent_workers := if max_workers < MW then max_workers else MW
   , conflict_test := conflict_test
   , job_cmp_order := cmp_order },
   { active_workers := 0
   , registered_workers := 0
   , jobs := fun _ => init_worker
   , waiters := fun _ _ => false
   , threads := fun _ => ThreadSt.done })

/-- First element of `l` satisfying `p` (the linear scans of the C file). -/
def findFirst (p : Nat → Bool) : List Nat → Option Nat
  | [] => none
  | i :: rest => if p i then some i else findFirst p rest

/-- Result of `job_queue_new_worker`: the two `NULL` returns are
distinguished by which `gu_warn` branch produced them. -/
inductive NewWorkerRes where
  | queueFull
  | noFreeSlot
  | ok (id : Nat) (st : queue_state)

/-- `job_queue_new_worker` (lines 80-125): fails if
`registered_workers == MAX_WORKERS`, else takes the first `JOB_VOID` slot,
sets it `JOB_IDLE` with the given type and increments `registered_workers`
(defensive `NULL` if no void slot is found). -/
def job_queue_new_worker (cfg : queue_config) (st : queue_state) (ty : Nat) :
    NewWorkerRes :=
  if st.registered_workers = cfg.MAX_WORKERS then
    NewWorkerRes.queueFull
  else
    match findFirst (fun i => (st.jobs i).state == JOB_VOID)
        (List.range cfg.MAX_WORKERS) with
    | none => NewWorkerRes.noFreeSlot
    | some id =>
        NewWorkerRes.ok id
          { st with
            registered_workers := st.registered_workers + 1
            jobs := updF st.jobs id { st.jobs id with state := JOB_IDLE, typ := ty } }

/-- `gu_cond_signal` on the condition variable of a parked thread: sets the
woken flag; a signal to a non-parked thread is lost. -/
def wakeThread : ThreadSt → ThreadSt
  | ThreadSt.parkedCap c _ => ThreadSt.parkedCap c true
  | ThreadSt.parkedConf c p _ => ThreadSt.parkedConf c p true
  | ThreadSt.done => ThreadSt.done

/-- `release_my_waiters` (lines 17-30): for every `i < registered_workers`
with `jobs[id].waiters[i]` set, signal slot `i`'s condition variable.  Note
the loop bound: waiter ids at or beyond `registered_workers` are not scanned. -/
def release_my_waiters (st : queue_state) (id : Nat) : queue_state :=
  { st with
    threads := fun i =>
      if i < st.registered_workers && st.waiters id i then
        wakeThread (st.threads i)
      else st.threads i }

/-- `job_queue_remove_worker` (lines 126-152): a `JOB_REGISTERED` slot is
first ended (idle, ctx cleared, waiters released); the slot (asserted
`JOB_IDLE`) is then set `JOB_VOID` and `registered_workers` decremented. -/
def job_queue_remove_worker (st : queue_state) (id : Nat) : queue_state :=
  let st1 :=
    if (st.jobs id).state = JOB_REGISTERED then
      release_my_waiters
        { st with jobs := updF st.jobs id { st.jobs id with state := JOB_IDLE, ctx := 0 } }
        id
    else st
  { st1 with
    registered_workers := st1.registered_workers - 1
    jobs := updF st1.jobs id { st1.jobs id with state := JOB_VOID } }

/-- `job_queue_register_job` (lines 207-223): no-op success when already
`JOB_RUNNING`, otherwise unconditionally store `ctx` and set
`JOB_REGISTERED`; always returns `WSDB_OK`. -/
def job_queue_register_job (st : queue_state) (id : Nat) (c : Nat) :
    Int × queue_state :=
  if (st.jobs id).state = JOB_RUNNING then
    (WSDB_OK, st)
  else
    (WSDB_OK,
     { st with jobs := updF st.jobs id { st.jobs id with state := JOB_REGISTERED, ctx := c } })

/-- The state test of the conflict scan (lines 184-187): jobs which are
running, waiting (either wait) or registered are conflict candidates. -/
def isLiveState : JobState → Bool
  | JOB_RUNNING => true
  | JOB_WAIT_QUEUE_ENTER => true
  | JOB_WAIT_FOR_JOB => true
  | JOB_REGISTERED => true
  | _ => false

/-- The conflict scan of `job_queue_start_job` (lines 183-199) from loop
index `k`: the first `i` in `[k, registered_workers)` that is a live slot
other than `id` whose stored ctx conflicts with `c`. -/
def scanFind (cfg : queue_config) (st : queue_state) (id c k : Nat) : Option Nat :=
  findFirst
    (fun i => decide (i ≠ id) && isLiveState (st.jobs i).state
              && cfg.conflict_test c (st.jobs i).ctx)
    (List.range' k (st.registered_workers - k))

/-- Continue the scan of `job_queue_start_job` for slot `id` (ctx argument
`c`, already stored) from index `k`: either a conflict is found at `p` (set
`jobs[p].waiters[id]`, park as `JOB_WAIT_FOR_JOB`, line 191-194) or the scan
completes and the slot becomes `JOB_RUNNING` (line 200). -/
def start_scan_step (cfg : queue_config) (st : queue_state) (id c k : Nat) :
    queue_state :=
  match scanFind cfg st id c k with
  | none =>
      { st with
        jobs := updF st.jobs id { st.jobs id with state := JOB_RUNNING }
        threads := updF st.threads id ThreadSt.done }
  | some p =>
      { st with
        jobs := updF st.jobs id { st.jobs id with state := JOB_WAIT_FOR_JOB }
        waiters := fun j => if j = p then updF (st.waiters p) id true else st.waiters j
        threads := updF st.threads id (ThreadSt.parkedConf c p false) }

/-- Lines 176-200 of `job_queue_start_job`, entered with the mutex held once
the admission gate has been passed: increment `active_workers`, store the
ctx argument, and run the conflict scan from index 0. -/
def start_engage (cfg : queue_config) (st : queue_state) (id c : Nat) :
    queue_state :=
  start_scan_step cfg
    { st with
      active_workers := st.active_workers + 1
      jobs := updF st.jobs id { st.jobs id with ctx := c } }
    id c 0

/-- `job_queue_start_job` (lines 154-205), first atomic segment: no-op if the
slot is already `JOB_RUNNING` (line 161); park as `JOB_WAIT_QUEUE_ENTER` if
`active_workers` has reached the ceiling (lines 169-174, keeping the ctx
argument in the blocked thread); otherwise engage and scan.  The call always
returns `WSDB_OK` (possibly after blocking). -/
def job_queue_start_job (cfg : queue_config) (st : queue_state) (id c : Nat) :
    Int × queue_state :=
  if (st.jobs id).state = JOB_RUNNING then
    (WSDB_OK, st)
  else if st.active_workers = cfg.max_concurrent_workers then
    (WSDB_OK,
     { st with
       jobs := updF st.jobs id { st.jobs id with state := JOB_WAIT_QUEUE_ENTER }
       threads := updF st.threads id (ThreadSt.parkedCap c false) })
  else
    (WSDB_OK, start_engage cfg st id c)

/-- Resumption of a thread signalled out of the admission-gate wait
(line 172 returns): increment `active_workers`, store the ctx argument and
scan from index 0 — the capacity check is not re-evaluated. -/
def start_resume_capacity (cfg : queue_config) (st : queue_state) (id c : Nat) :
    queue_state :=
  start_engage cfg { st with threads := updF st.threads id ThreadSt.done } id c

/-- Resumption of a thread signalled out of the conflict wait (line 194
returns): clear `jobs[p].waiters[id]` (line 196) and continue the scan at
`p + 1` (the `for` increments `i`; slot `p` is not re-tested). -/
def start_resume_conflict (cfg : queue_config) (st : queue_state) (id c p : Nat) :
    queue_state :=
  start_scan_step cfg
    { st with
      waiters := fun j => if j = p then updF (st.waiters p) id false else st.waiters j
      threads := updF st.threads id ThreadSt.done }
    id c (p + 1)

/-- The re-admission selection loop of `job_queue_end_job` (lines 258-269):
fold over `i < registered_workers`, keeping the incumbent minimum unless
`job_cmp_order` returns `-1` for the challenger.  The comparator is applied
to the *addresses* of the stored ctx fields (`&queue->jobs[i].ctx`), modelled
by `ctx_field_addr`. -/
def requeue_min_loop (cfg : queue_config) (st : queue_state)
    (addr : Nat → Nat) : List Nat → Option Nat → Option Nat
  | [], m => m
  | i :: rest, m =>
      if (st.jobs i).state = JOB_WAIT_QUEUE_ENTER then
        match m with
        | some mj =>
            if cfg.job_cmp_order (addr i) (addr mj) = -1 then
              requeue_min_loop cfg st addr rest (some i)
            else
              requeue_min_loop cfg st addr rest (some mj)
        | none => requeue_min_loop cfg st addr rest (some i)
      else requeue_min_loop cfg st addr rest m

/-- The address of `queue->jobs[i].ctx`: the slot records lie in one fixed
array, so the ctx-field addresses are an affine, strictly increasing
function of the slot index (a concrete base and stride are chosen). -/
def ctx_field_addr (i : Nat) : Nat := 1000000 + 8 * i

/-- `min_job` as computed by `job_queue_end_job` (`-1` becomes `none`). -/
def requeue_min (cfg : queue_config) (st : queue_state) : Option Nat :=
  requeue_min_loop cfg st ctx_field_addr (List.range st.registered_workers) none

/-- Lines 244-255 of `job_queue_end_job`: release this slot's waiters,
decrement `active_workers` only when the slot was running, set it
`JOB_IDLE` and clear its ctx. -/
def end_phase1 (st : queue_state) (id : Nat) : queue_state :=
  let st1 := release_my_waiters st id
  let st2 :=
    if (st1.jobs id).state = JOB_RUNNING then
      { st1 with active_workers := st1.active_workers - 1 }
    else st1
  { st2 with jobs := updF st2.jobs id { st2.jobs id with state := JOB_IDLE, ctx := 0 } }

/-- `job_queue_end_job` (lines 225-280): `NULL` (here `none`) and no mutation
unless the slot is `JOB_RUNNING` or `JOB_REGISTERED`; otherwise run
`end_phase1` (waiter release, counter, idle/clear; the returned ctx is
captured before the clear) and signal the `requeue_min` slot, if any. -/
def job_queue_end_job (cfg : queue_config) (st : queue_state) (id : Nat) :
    Option Nat × queue_state :=
  if (st.jobs id).state ≠ JOB_RUNNING ∧ (st.jobs id).state ≠ JOB_REGISTERED then
    (none, st)
  else
    let st3 := end_phase1 st id
    match requeue_min cfg st3 with
    | some m =>
        (some (st.jobs id).ctx,
         { st3 with threads := updF st3.threads m (wakeThread (st3.threads m)) })
    | none => (some (st.jobs id).ctx, st3)

/-!
## The transition system

One atomic transition per mutex-protected segment.  Caller-facing calls
(`new_worker`, `remove_worker`, `register`, `start`, `end`) are only issued
on slots the caller holds a handle to (`state ≠ JOB_VOID`, the spec's
addressability rule) and whose driving thread is not currently blocked;
`resumeCap`/`resumeConf` run the continuation of a signalled parked thread.
`allowRemove` selects whether `job_queue_remove_worker` calls occur. -/
inductive Step (cfg : queue_config) (allowRemove : Bool) :
    queue_state → queue_state → Prop where
  | newWorker (st : queue_state) (ty id : Nat) (st' : queue_state)
      (h : job_queue_new_worker cfg st ty = NewWorkerRes.ok id st') :
      Step cfg allowRemove st st'
  | removeWorker (st : queue_state) (id : Nat)
      (har : allowRemove = true)
      (hid : id < cfg.MAX_WORKERS)
      (hst : (st.jobs id).state = JOB_IDLE ∨ (st.jobs id).state = JOB_REGISTERED)
      (hth : st.threads id = ThreadSt.done) :
      Step cfg allowRemove st (job_queue_remove_worker st id)
  | registerJob (st : queue_state) (id c : Nat)
      (hid : id < cfg.MAX_WORKERS)
      (hv : (st.jobs id).state ≠ JOB_VOID)
      (hth : st.threads id = ThreadSt.done) :
      Step cfg allowRemove st (job_queue_register_job st id c).2
  | startCall (st : queue_state) (id c : Nat)
      (hid : id < cfg.MAX_WORKERS)
      (hv : (st.jobs id).state ≠ JOB_VOID)
      (hth : st.threads id = ThreadSt.done) :
      Step cfg allowRemove st (job_queue_start_job cfg st id c).2
  | resumeCap (st : queue_state) (id c : Nat)
      (h : st.threads id = ThreadSt.parkedCap c true) :
      Step cfg allowRemove st (start_resume_capacity cfg st id c)
  | resumeConf (st : queue_state) (id c p : Nat)
      (h : st.threads id = ThreadSt.parkedConf c p true) :
      Step cfg allowRemove st (start_resume_conflict cfg st id c p)
  | endCall (st : queue_state) (id : Nat)
      (hid : id < cfg.MAX_WORKERS)
      (hv : (st.jobs id).state ≠ JOB_VOID)
      (hth : st.threads id = ThreadSt.done) :
      Step cfg allowRemove st (job_queue_end_job cfg st id).2

/-- States reachable from `st0` through `Step` transitions. -/
inductive Reachable (cfg : queue_config) (allowRemove : Bool) (st0 : queue_state) :
    queue_state → Prop where
  | init : Reachable cfg allowRemove st0 st0
  | step {st st' : queue_state} :
      Reachable cfg allowRemove st0 st → Step cfg allowRemove st st' →
      Reachable cfg allowRemove st0 st'

/-- The re-admission selection as the spec describes it: the same incumbent
fold, but with `order_of` applied to the stored ctx *values* of the
candidate slots rather than to the addresses of their ctx fields. -/
def requeue_min_by_ctx (cfg : queue_config) (st : queue_state) : Option Nat :=
  requeue_min_loop cfg st (fun i => (st.jobs i).ctx)
    (List.range st.registered_workers) none

/-- Number of `i < n` with `p i`. -/
def countB (n : Nat) (p : Nat → Bool) : Nat := (List.range n).countP p

/-!
## The base invariant (all executions, worker removal included)
-/

/-- Boolean test: slot `i` is allocated (`state ≠ JOB_VOID`). -/
def nonVoidB (st : queue_state) (i : Nat) : Bool :=
  decide ((st.jobs i).state ≠ JOB_VOID)

/-- Boolean test: slot `i` is `JOB_RUNNING`. -/
def runningB (st : queue_state) (i : Nat) : Bool :=
  decide ((st.jobs i).state = JOB_RUNNING)

/-- Boolean test: slot `i` is `JOB_WAIT_FOR_JOB`. -/
def waitJobB (st : queue_state) (i : Nat) : Bool :=
  decide ((st.jobs i).state = JOB_WAIT_FOR_JOB)

/-- Agreement between a slot's state and its thread continuation: a slot is
in a waiting state exactly while its driving thread is parked at the
corresponding wait, and a conflict-parked thread records the stored ctx and
a valid park position. -/
def threadStateOk (cfg : queue_config) (st : queue_state) (i : Nat) : Prop :=
  match st.threads i with
  | ThreadSt.done =>
      (st.jobs i).state ≠ JOB_WAIT_QUEUE_ENTER ∧ (st.jobs i).state ≠ JOB_WAIT_FOR_JOB
  | ThreadSt.parkedCap _ _ => (st.jobs i).state = JOB_WAIT_QUEUE_ENTER
  | ThreadSt.parkedConf c p _ =>
      (st.jobs i).state = JOB_WAIT_FOR_JOB ∧ (st.jobs i).ctx = c ∧
      p < cfg.MAX_WORKERS ∧ p ≠ i

/-- Invariant maintained by every transition (worker removal included). -/
structure InvBase (cfg : queue_config) (st : queue_state) : Prop where
  reg_le : st.registered_workers ≤ cfg.MAX_WORKERS
  out_jobs : ∀ i, cfg.MAX_WORKERS ≤ i → st.jobs i = init_worker
  out_threads : ∀ i, cfg.MAX_WORKERS ≤ i → st.threads i = ThreadSt.done
  counts : st.registered_workers = countB cfg.MAX_WORKERS (nonVoidB st)
  active_eq : st.active_workers =
    countB cfg.MAX_WORKERS (runningB st) + countB cfg.MAX_WORKERS (waitJobB st)
  ts : ∀ i, threadStateOk cfg st i
  wt : ∀ t i, st.waiters t i = true ↔ ∃ c w, st.threads i = ThreadSt.parkedConf c t w

/-!
## Concrete fixtures for witnesses and counterexamples
-/

/-- State after a successful `job_queue_new_worker` (for building traces). -/
def nw (cfg : queue_config) (st : queue_state) (ty : Nat) : queue_state :=
  match job_queue_new_worker cfg st ty with
  | NewWorkerRes.ok _ s => s
  | _ => st

/-- A numeric comparator on `void *` values: the natural order. -/
def natCmp (a b : Nat) : Int := if a < b then -1 else if a = b then 0 else 1

/-- Fixture: capacity 3, one concurrency seat, no conflicts, numeric order. -/
def cexC2 : queue_config × queue_state :=
  job_queue_create 3 1 (fun _ _ => false) natCmp

def cexC2_a : queue_state := nw cexC2.1 cexC2.2 0
def cexC2_b : queue_state := nw cexC2.1 cexC2_a 0
def cexC2_c : queue_state := nw cexC2.1 cexC2_b 0
def cexC2_d : queue_state := (job_queue_register_job cexC2_c 2 42).2
def cexC2_e : queue_state := (job_queue_start_job cexC2.1 cexC2_d 0 7).2
def cexC2_f : queue_state := (job_queue_start_job cexC2.1 cexC2_e 1 8).2
def cexC2_g : queue_state := (job_queue_end_job cexC2.1 cexC2_f 2).2
def cexC2_h : queue_state := start_resume_capacity cexC2.1 cexC2_g 1 8

/-- Fixture: two slots, two seats, symmetric conflict between payloads 7, 9. -/
def cexC1 : queue_config × queue_state :=
  job_queue_create 2 2 (fun a b => (a == 7 && b == 9) || (a == 9 && b == 7)) natCmp

def cexC1_a : queue_state := nw cexC1.1 cexC1.2 0
def cexC1_b : queue_state := nw cexC1.1 cexC1_a 0
def cexC1_c : queue_state := (job_queue_start_job cexC1.1 cexC1_b 0 7).2
def cexC1_d : queue_state := (job_queue_register_job cexC1_c 1 9).2

/-- Fixture: six slots, six seats, conflict only of payload 9 against 7. -/
def cexC3 : queue_config × queue_state :=
  job_queue_create 6 6 (fun a b => a == 9 && b == 7) natCmp

def cexC3_a : queue_state := nw cexC3.1 cexC3.2 0
def cexC3_b : queue_state := nw cexC3.1 cexC3_a 0
def cexC3_c : queue_state := nw cexC3.1 cexC3_b 0
def cexC3_d : queue_state := nw cexC3.1 cexC3_c 0
def cexC3_e : queue_state := nw cexC3.1 cexC3_d 0
def cexC3_f : queue_state := nw cexC3.1 cexC3_e 0
def cexC3_g : queue_state := (job_queue_start_job cexC3.1 cexC3_f 0 7).2
def cexC3_h : queue_state := (job_queue_start_job cexC3.1 cexC3_g 5 9).2
def cexC3_i : queue_state := job_queue_remove_worker cexC3_h 4
def cexC3_j : queue_state := job_queue_remove_worker cexC3_i 3
def cexC3_k : queue_state := job_queue_remove_worker cexC3_j 2
def cexC3_l : queue_state := job_queue_remove_worker cexC3_k 1

/-- Fixture: three slots, one seat, no conflicts, numeric order; two
registered payloads parked at the admission gate. -/
def cexC4 : queue_config × queue_state :=
  job_queue_create 3 1 (fun _ _ => false) natCmp

def cexC4_a : queue_state := nw cexC4.1 cexC4.2 0
def cexC4_b : queue_state := nw cexC4.1 cexC4_a 0
def cexC4_c : queue_state := nw cexC4.1 cexC4_b 0
def cexC4_d : queue_state := (job_queue_start_job cexC4.1 cexC4_c 2 11).2
def cexC4_e : queue_state := (job_queue_register_job cexC4_d 0 5).2
def cexC4_f : queue_state := (job_queue_register_job cexC4_e 1 3).2
def cexC4_g : queue_state := (job_queue_start_job cexC4.1 cexC4_f 0 5).2
def cexC4_h : queue_state := (job_queue_start_job cexC4.1 cexC4_g 1 3).2

/-- Fixture: two slots, two seats, asymmetric conflict of payload 8 with 7. -/
def cexC5 : queue_config × queue_state :=
  job_queue_create 2 2 (fun a b => a == 8 && b == 7) natCmp

def cexC5_a : queue_state := nw cexC5.1 cexC5.2 0
def cexC5_b : queue_state := nw cexC5.1 cexC5_a 0
def cexC5_c : queue_state := (job_queue_start_job cexC5.1 cexC5_b 0 7).2
def cexC5_d : queue_state := (job_queue_start_job cexC5.1 cexC5_c 1 8).2

/-- C3 remove-path fixture: on the two-worker queue of `cexC5`, slot 0 is
registered with ctx 7 (never started), and the starter of slot 1 (ctx 8)
conflict-parks on it, recording `waiters[0][1]`. -/
def cexC3r_a : queue_state := (job_queue_register_job cexC5_b 0 7).2

def cexC3r_b : queue_state := (job_queue_start_job cexC5.1 cexC3r_a 1 8).2

/-!
## Mutual exclusion of conflicting running slots (no-removal executions)

`armed` slots are those whose stored ctx is the ctx of an admission-granted
unit: running slots and conflict-parked slots.  The inductive invariant
`InvNR` strengthens `InvBase` with the prefix property (no removals, so
allocated slots occupy ids `0..registered`), a bound on park positions, the
scan-progress relation `i6` between parked and armed slots, and mutual
exclusion itself.
-/

/-- Slot `i` has passed the admission gate with its current ctx: it is
running or parked in the conflict scan. -/
def armed (st : queue_state) (i : Nat) : Prop :=
  (st.jobs i).state = JOB_RUNNING ∨ (st.jobs i).state = JOB_WAIT_FOR_JOB

/-- The scan-progress relation: whenever slot `i` is conflict-parked at
position `pi` and a distinct armed slot `j` conflicts with `i`'s ctx, then
either `i` will still scan `j` (`pi < j`), or `i` is parked exactly on `j`
and has not been signalled, or `j` is itself parked at or before `i`
(strictly before, or exactly on `i` without having been signalled). -/
def scanProgress (cfg : queue_config) (st : queue_state) : Prop :=
  ∀ i j ci pi wi, i ≠ j →
    st.threads i = ThreadSt.parkedConf ci pi wi →
    armed st j →
    cfg.conflict_test ci ((st.jobs j).ctx) = true →
    pi < j ∨ (pi = j ∧ wi = false) ∨
    (∃ cj pj wj, st.threads j = ThreadSt.parkedConf cj pj wj ∧
      (pj < i ∨ (pj = i ∧ wj = false)))

/-- Invariant of executions without `job_queue_remove_worker`. -/
structure InvNR (cfg : queue_config) (st : queue_state) : Prop where
  base : InvBase cfg st
  pfx : ∀ i, (st.jobs i).state ≠ JOB_VOID ↔ i < st.registered_workers
  pos_lt : ∀ i ci pi wi, st.threads i = ThreadSt.parkedConf ci pi wi →
    pi < st.registered_workers
  i6 : scanProgress cfg st
  mutex : ∀ i j, i ≠ j →
    cfg.conflict_test ((st.jobs i).ctx) ((st.jobs j).ctx) = true →
    ¬((st.jobs i).state = JOB_RUNNING ∧ (st.jobs j).state = JOB_RUNNING)

theorem updF_same {α : Type} (f : Nat → α) (i : Nat) (a : α) : updF f i a i = a := by
  simp [updF]

theorem updF_other {α : Type} (f : Nat → α) (i : Nat) (a : α) {j : Nat} (h : j ≠ i) :
    updF f i a j = f j := by
  simp [updF, h]

/-!
## Generic helper lemmas: linear scans and counting
-/

theorem findFirst_eq_none {p : Nat → Bool} {l : List Nat} :
    findFirst p l = none ↔ ∀ i ∈ l, p i = false := by
  induction l with
  | nil => simp [findFirst]
  | cons a t ih =>
      by_cases h : p a = true
      · simp [findFirst, h]
      · simp only [Bool.not_eq_true] at h
        simp [findFirst, h, ih]

theorem findFirst_eq_some {p : Nat → Bool} {l : List Nat} {i : Nat}
    (h : findFirst p l = some i) : p i = true ∧ i ∈ l := by
  induction l with
  | nil => simp [findFirst] at h
  | cons a t ih =>
      by_cases ha : p a = true
      · simp [findFirst, ha] at h
        subst h; exact ⟨ha, List.mem_cons_self _ _⟩
      · simp only [Bool.not_eq_true] at ha
        simp [findFirst, ha] at h
        rcases ih h with ⟨h1, h2⟩
        exact ⟨h1, List.mem_cons_of_mem _ h2⟩

theorem findFirst_range'_some {p : Nat → Bool} {s n i : Nat}
    (h : findFirst p (List.range' s n) = some i) :
    s ≤ i ∧ i < s + n ∧ p i = true ∧ ∀ j, s ≤ j → j < i → p j = false := by
  induction n generalizing s with
  | zero => simp [List.range', findFirst] at h
  | succ n ih =>
      rw [List.range'_succ] at h
      by_cases hs : p s = true
      · simp [findFirst, hs] at h
        subst h
        exact ⟨le_refl _, by omega, hs, fun j h1 h2 => by omega⟩
      · simp only [Bool.not_eq_true] at hs
        simp [findFirst, hs] at h
        rcases ih h with ⟨h1, h2, h3, h4⟩
        refine ⟨by omega, by omega, h3, fun j hj1 hj2 => ?_⟩
        rcases Nat.eq_or_lt_of_le hj1 with rfl | hlt
        · exact hs
        · exact h4 j hlt hj2

theorem findFirst_range'_none {p : Nat → Bool} {s n : Nat} :
    findFirst p (List.range' s n) = none ↔ ∀ j, s ≤ j → j < s + n → p j = false := by
  rw [findFirst_eq_none]
  constructor
  · intro h j h1 h2
    exact h j (List.mem_range'_1.2 ⟨h1, h2⟩)
  · intro h j hj
    rcases List.mem_range'_1.1 hj with ⟨h1, h2⟩
    exact h j h1 h2

theorem findFirst_range_some {p : Nat → Bool} {n i : Nat}
    (h : findFirst p (List.range n) = some i) :
    i < n ∧ p i = true ∧ ∀ j, j < i → p j = false := by
  rw [List.range_eq_range'] at h
  rcases findFirst_range'_some h with ⟨_, h2, h3, h4⟩
  exact ⟨by omega, h3, fun j hj => h4 j (Nat.zero_le _) hj⟩

theorem findFirst_range_none {p : Nat → Bool} {n : Nat} :
    findFirst p (List.range n) = none ↔ ∀ j, j < n → p j = false := by
  rw [List.range_eq_range', findFirst_range'_none]
  constructor
  · intro h j hj; exact h j (Nat.zero_le _) (by omega)
  · intro h j _ hj; exact h j (by omega)

theorem countB_succ (n : Nat) (p : Nat → Bool) :
    countB (n + 1) p = countB n p + (if p n then 1 else 0) := by
  simp [countB, List.range_succ, List.countP_append, List.countP_cons]

theorem countB_congr {n : Nat} {p q : Nat → Bool} (h : ∀ i, i < n → p i = q i) :
    countB n p = countB n q := by
  induction n with
  | zero => simp [countB]
  | succ n ih =>
      rw [countB_succ, countB_succ, ih (fun i hi => h i (by omega)), h n (by omega)]

/-- Change of `countB` under a point update of the counted predicate. -/
theorem countB_update {n i : Nat} {p q : Nat → Bool}
    (hne : ∀ j, j ≠ i → p j = q j) (hi : i < n) :
    countB n q + (if p i then 1 else 0) = countB n p + (if q i then 1 else 0) := by
  induction n with
  | zero => omega
  | succ n ih =>
      rcases Nat.lt_or_ge i n with h | h
      · rw [countB_succ, countB_succ, hne n (by omega)]
        have := ih h
        omega
      · have : i = n := by omega
        subst this
        rw [countB_succ, countB_succ,
          countB_congr (fun j hj => hne j (by omega))]
        omega

theorem countB_eq_n {n : Nat} {p : Nat → Bool} (h : ∀ i, i < n → p i = true) :
    countB n p = n := by
  induction n with
  | zero => simp [countB]
  | succ n ih =>
      rw [countB_succ, h n (by omega), ih (fun i hi => h i (by omega))]
      simp

theorem exists_false_of_countB_lt {n : Nat} {p : Nat → Bool}
    (h : countB n p < n) : ∃ i, i < n ∧ p i = false := by
  by_contra hc
  push_neg at hc
  have : ∀ i, i < n → p i = true := by
    intro i hi
    cases hp : p i with
    | false => exact absurd hp (hc i hi)
    | true => rfl
  rw [countB_eq_n this] at h
  omega

/-!
## Characterization of the conflict scan and the requeue fold
-/

theorem scanFind_eq_none {cfg : queue_config} {st : queue_state} {id c k : Nat} :
    scanFind cfg st id c k = none ↔
      ∀ i, k ≤ i → i < st.registered_workers → i ≠ id →
        isLiveState (st.jobs i).state = true →
        cfg.conflict_test c (st.jobs i).ctx = false := by
  unfold scanFind
  rw [findFirst_range'_none]
  constructor
  · intro h i h1 h2 h3 h4
    have := h i h1 (by omega)
    simp [h3, h4] at this
    exact this
  · intro h j h1 h2
    by_cases hj : j ≠ id ∧ isLiveState (st.jobs j).state = true
    · have := h j h1 (by omega) hj.1 hj.2
      simp [hj.1, hj.2, this]
    · rcases not_and_or.1 hj with hc | hc
      · simp at hc
        simp [hc]
      · simp only [Bool.not_eq_true] at hc
        simp [hc]

theorem scanFind_eq_some {cfg : queue_config} {st : queue_state} {id c k p : Nat}
    (h : scanFind cfg st id c k = some p) :
    k ≤ p ∧ p < st.registered_workers ∧ p ≠ id ∧
      isLiveState (st.jobs p).state = true ∧
      cfg.conflict_test c (st.jobs p).ctx = true ∧
      ∀ j, k ≤ j → j < p → j ≠ id →
        isLiveState (st.jobs j).state = true →
        cfg.conflict_test c (st.jobs j).ctx = false := by
  unfold scanFind at h
  rcases findFirst_range'_some h with ⟨h1, h2, h3, h4⟩
  simp only [Bool.and_eq_true, decide_eq_true_eq] at h3
  refine ⟨h1, by omega, h3.1.1, h3.1.2, h3.2, ?_⟩
  intro j hj1 hj2 hj3 hj4
  have := h4 j hj1 hj2
  simp [hj3, hj4] at this
  exact this

/-- Accumulator `some` is absorbing: the requeue fold never forgets a found
candidate. -/
theorem requeue_min_loop_some_acc (cfg : queue_config) (st : queue_state)
    (addr : Nat → Nat) (l : List Nat) (j : Nat) :
    ∃ j', requeue_min_loop cfg st addr l (some j) = some j' := by
  induction l generalizing j with
  | nil => exact ⟨j, rfl⟩
  | cons a t ih =>
      by_cases ha : (st.jobs a).state = JOB_WAIT_QUEUE_ENTER
      · by_cases hc : cfg.job_cmp_order (addr a) (addr j) = -1
        · simpa [requeue_min_loop, ha, hc] using ih a
        · simpa [requeue_min_loop, ha, hc] using ih j
      · simpa [requeue_min_loop, ha] using ih j

theorem requeue_min_loop_eq_none {cfg : queue_config} {st : queue_state}
    {addr : Nat → Nat} {l : List Nat} :
    requeue_min_loop cfg st addr l none = none ↔
      ∀ i ∈ l, (st.jobs i).state ≠ JOB_WAIT_QUEUE_ENTER := by
  induction l with
  | nil => simp [requeue_min_loop]
  | cons a t ih =>
      by_cases ha : (st.jobs a).state = JOB_WAIT_QUEUE_ENTER
      · simp only [requeue_min_loop, ha, if_pos]
        rcases requeue_min_loop_some_acc cfg st addr t a with ⟨j', hj'⟩
        simp [hj', ha]
      · simp [requeue_min_loop, ha, ih]

/-- Every result of the requeue fold is a waiting candidate from the list or
the initial accumulator. -/
theorem requeue_min_loop_mem {cfg : queue_config} {st : queue_state}
    {addr : Nat → Nat} {l : List Nat} {m : Option Nat} {j' : Nat}
    (h : requeue_min_loop cfg st addr l m = some j') :
    ((st.jobs j').state = JOB_WAIT_QUEUE_ENTER ∧ j' ∈ l) ∨ m = some j' := by
  induction l generalizing m with
  | nil => right; exact h
  | cons a t ih =>
      by_cases ha : (st.jobs a).state = JOB_WAIT_QUEUE_ENTER
      · rcases m with _ | mj
        · simp only [requeue_min_loop, ha, if_pos] at h
          rcases ih h with ⟨h1, h2⟩ | h1
          · exact Or.inl ⟨h1, List.mem_cons_of_mem _ h2⟩
          · injection h1 with h1
            subst h1
            exact Or.inl ⟨ha, List.mem_cons_self _ _⟩
        · by_cases hc : cfg.job_cmp_order (addr a) (addr mj) = -1
          · simp only [requeue_min_loop, ha, if_pos, hc] at h
            rcases ih h with ⟨h1, h2⟩ | h1
            · exact Or.inl ⟨h1, List.mem_cons_of_mem _ h2⟩
            · injection h1 with h1
              subst h1
              exact Or.inl ⟨ha, List.mem_cons_self _ _⟩
          · simp only [requeue_min_loop, ha, if_pos, hc, if_neg] at h
            rcases ih h with ⟨h1, h2⟩ | h1
            · exact Or.inl ⟨h1, List.mem_cons_of_mem _ h2⟩
            · right; exact h1
      · simp only [requeue_min_loop, ha, if_neg] at h
        rcases ih h with ⟨h1, h2⟩ | h1
        · exact Or.inl ⟨h1, List.mem_cons_of_mem _ h2⟩
        · right; exact h1

/-- The fold result either is the initial accumulator or strictly precedes it
in the comparator (given transitivity of the `-1` relation). -/
theorem requeue_min_loop_desc {cfg : queue_config} {st : queue_state}
    {addr : Nat → Nat}
    (htrans : ∀ x y z, cfg.job_cmp_order x y = -1 → cfg.job_cmp_order y z = -1 →
      cfg.job_cmp_order x z = -1)
    {l : List Nat} {j0 j' : Nat}
    (h : requeue_min_loop cfg st addr l (some j0) = some j') :
    j' = j0 ∨ cfg.job_cmp_order (addr j') (addr j0) = -1 := by
  induction l generalizing j0 with
  | nil =>
      simp only [requeue_min_loop] at h
      injection h with h
      exact Or.inl h.symm
  | cons a t ih =>
      by_cases ha : (st.jobs a).state = JOB_WAIT_QUEUE_ENTER
      · by_cases hc : cfg.job_cmp_order (addr a) (addr j0) = -1
        · simp only [requeue_min_loop, ha, if_pos, hc] at h
          rcases ih h with rfl | h1
          · exact Or.inr hc
          · exact Or.inr (htrans _ _ _ h1 hc)
        · simp only [requeue_min_loop, ha, if_pos, hc, if_neg] at h
          exact ih h
      · simp only [requeue_min_loop, ha, if_neg] at h
        exact ih h

/-- Minimality of the requeue fold result: for a transitive and irreflexive
comparator, no waiting candidate in the list strictly precedes the result. -/
theorem requeue_min_loop_min {cfg : queue_config} {st : queue_state}
    {addr : Nat → Nat}
    (htrans : ∀ x y z, cfg.job_cmp_order x y = -1 → cfg.job_cmp_order y z = -1 →
      cfg.job_cmp_order x z = -1)
    (hirr : ∀ x, cfg.job_cmp_order x x ≠ -1)
    {l : List Nat} {m : Option Nat} {j' : Nat}
    (h : requeue_min_loop cfg st addr l m = some j') :
    ∀ i ∈ l, (st.jobs i).state = JOB_WAIT_QUEUE_ENTER →
      cfg.job_cmp_order (addr i) (addr j') ≠ -1 := by
  induction l generalizing m with
  | nil => intro i hi; simp at hi
  | cons a t ih =>
      intro i hi hq
      rcases List.mem_cons.1 hi with rfl | hit
      · -- the head candidate never strictly precedes the final result
        by_cases hlt : cfg.job_cmp_order (addr i) (addr j') = -1
        · exfalso
          rcases m with _ | mj
          · simp only [requeue_min_loop, hq, if_pos] at h
            rcases requeue_min_loop_desc htrans h with rfl | h1
            · exact hirr _ hlt
            · exact hirr _ (htrans _ _ _ hlt h1)
          · by_cases hc : cfg.job_cmp_order (addr i) (addr mj) = -1
            · simp only [requeue_min_loop, hq, if_pos, hc] at h
              rcases requeue_min_loop_desc htrans h with rfl | h1
              · exact hirr _ hlt
              · exact hirr _ (htrans _ _ _ hlt h1)
            · simp only [requeue_min_loop, hq, if_pos, hc, if_neg] at h
              rcases requeue_min_loop_desc htrans h with rfl | h1
              · exact hc hlt
              · exact hc (htrans _ _ _ hlt h1)
        · exact hlt
      · rcases m with _ | mj
        · by_cases ha : (st.jobs a).state = JOB_WAIT_QUEUE_ENTER
          · simp only [requeue_min_loop, ha, if_pos] at h
            exact ih h i hit hq
          · simp only [requeue_min_loop, ha, if_neg] at h
            exact ih h i hit hq
        · by_cases ha : (st.jobs a).state = JOB_WAIT_QUEUE_ENTER
          · by_cases hc : cfg.job_cmp_order (addr a) (addr mj) = -1
            · simp only [requeue_min_loop, ha, if_pos, hc] at h
              exact ih h i hit hq
            · simp only [requeue_min_loop, ha, if_pos, hc, if_neg] at h
              exact ih h i hit hq
          · simp only [requeue_min_loop, ha, if_neg] at h
            exact ih h i hit hq

/-- Effect of a successful `job_queue_new_worker`: the first void slot is
taken. -/
theorem job_queue_new_worker_ok {cfg : queue_config} {st : queue_state}
    {ty id : Nat} {st' : queue_state}
    (h : job_queue_new_worker cfg st ty = NewWorkerRes.ok id st') :
    st.registered_workers ≠ cfg.MAX_WORKERS ∧ id < cfg.MAX_WORKERS ∧
    (st.jobs id).state = JOB_VOID ∧ (∀ j, j < id → (st.jobs j).state ≠ JOB_VOID) ∧
    st' = { st with
            registered_workers := st.registered_workers + 1
            jobs := updF st.jobs id { st.jobs id with state := JOB_IDLE, typ := ty } } := by
  unfold job_queue_new_worker at h
  by_cases hfull : st.registered_workers = cfg.MAX_WORKERS
  · simp [hfull] at h
  · rw [if_neg hfull] at h
    rcases heq : findFirst (fun i => (st.jobs i).state == JOB_VOID)
        (List.range cfg.MAX_WORKERS) with _ | i
    · rw [heq] at h; exact absurd h (by simp)
    · rw [heq] at h
      injection h with h1 h2
      subst h1
      rcases findFirst_range_some heq with ⟨hid, hpred, hfirst⟩
      simp only [beq_iff_eq] at hpred
      refine ⟨hfull, hid, hpred, ?_, h2.symm⟩
      intro j hj hvj
      have := hfirst j hj
      rw [hvj] at this
      simp at this

theorem invBase_newWorker {cfg : queue_config} {st : queue_state}
    {ty id : Nat} {st' : queue_state}
    (hInv : InvBase cfg st)
    (h : job_queue_new_worker cfg st ty = NewWorkerRes.ok id st') :
    InvBase cfg st' := by
  rcases job_queue_new_worker_ok h with ⟨hfull, hid, hvoid, _, rfl⟩
  have hthid : st.threads id = ThreadSt.done := by
    have hts := hInv.ts id
    unfold threadStateOk at hts
    rcases hth : st.threads id with _ | ⟨c, w⟩ | ⟨c, p, w⟩
    · rfl
    · rw [hth] at hts; rw [hts] at hvoid; exact absurd hvoid (by simp)
    · rw [hth] at hts; rw [hts.1] at hvoid; exact absurd hvoid (by simp)
  constructor
  · have := hInv.reg_le
    simp only []
    omega
  · intro i hi
    have := hInv.out_jobs i hi
    simp only []
    rw [updF_other _ _ _ (by omega : i ≠ id)]
    exact this
  · intro i hi
    exact hInv.out_threads i hi
  · have hupd := countB_update (n := cfg.MAX_WORKERS) (i := id)
      (p := nonVoidB st)
      (q := nonVoidB { st with
            registered_workers := st.registered_workers + 1
            jobs := updF st.jobs id { st.jobs id with state := JOB_IDLE, typ := ty } })
      (by
        intro j hj
        simp [nonVoidB, updF, hj])
      hid
    simp [nonVoidB, updF, hvoid] at hupd
    have hc := hInv.counts
    simp only [nonVoidB] at hc hupd ⊢
    omega
  · have h1 : countB cfg.MAX_WORKERS (runningB { st with
            registered_workers := st.registered_workers + 1
            jobs := updF st.jobs id { st.jobs id with state := JOB_IDLE, typ := ty } }) =
        countB cfg.MAX_WORKERS (runningB st) := by
      apply countB_congr
      intro i _
      by_cases hij : i = id
      · subst hij
        simp [runningB, updF, hvoid]
      · simp [runningB, updF, hij]
    have h2 : countB cfg.MAX_WORKERS (waitJobB { st with
            registered_workers := st.registered_workers + 1
            jobs := updF st.jobs id { st.jobs id with state := JOB_IDLE, typ := ty } }) =
        countB cfg.MAX_WORKERS (waitJobB st) := by
      apply countB_congr
      intro i _
      by_cases hij : i = id
      · subst hij
        simp [waitJobB, updF, hvoid]
      · simp [waitJobB, updF, hij]
    simp only [h1, h2]
    exact hInv.active_eq
  · intro i
    have hts := hInv.ts i
    unfold threadStateOk at hts ⊢
    by_cases hij : i = id
    · subst hij
      rw [hthid] at hts ⊢
      simp only [updF_same]
      simp
    · simp only []
      rw [updF_other _ _ _ hij]
      exact hts
  · intro t i
    exact hInv.wt t i

theorem countB_update_ft {n i : Nat} {p q : Nat → Bool}
    (hne : ∀ j, j ≠ i → p j = q j) (hi : i < n)
    (hp : p i = false) (hq : q i = true) :
    countB n q = countB n p + 1 := by
  have h := countB_update hne hi
  simp only [hp, hq] at h
  simp at h
  omega

theorem countB_update_tf {n i : Nat} {p q : Nat → Bool}
    (hne : ∀ j, j ≠ i → p j = q j) (hi : i < n)
    (hp : p i = true) (hq : q i = false) :
    countB n q + 1 = countB n p := by
  have h := countB_update hne hi
  simp only [hp, hq] at h
  simp at h
  omega

theorem countB_update_same {n i : Nat} {p q : Nat → Bool}
    (hne : ∀ j, j ≠ i → p j = q j) (hpq : p i = q i) :
    countB n q = countB n p := by
  refine (countB_congr ?_).symm
  intro j _
  by_cases hj : j = i
  · subst hj; exact hpq
  · exact hne j hj

theorem invBase_scan_complete {cfg : queue_config} {st : queue_state} {id : Nat}
    (hid : id < cfg.MAX_WORKERS)
    (hreg : st.registered_workers ≤ cfg.MAX_WORKERS)
    (houtj : ∀ i, cfg.MAX_WORKERS ≤ i → st.jobs i = init_worker)
    (houtt : ∀ i, cfg.MAX_WORKERS ≤ i → st.threads i = ThreadSt.done)
    (hcounts : st.registered_workers = countB cfg.MAX_WORKERS (nonVoidB st))
    (hactive : st.active_workers =
      countB cfg.MAX_WORKERS (runningB st) + countB cfg.MAX_WORKERS (waitJobB st) +
        (if (st.jobs id).state = JOB_WAIT_FOR_JOB then 0 else 1))
    (hnv : (st.jobs id).state ≠ JOB_VOID)
    (hnr : (st.jobs id).state ≠ JOB_RUNNING)
    (hts : ∀ i, i ≠ id → threadStateOk cfg st i)
    (hwt : ∀ t i, i ≠ id →
      (st.waiters t i = true ↔ ∃ c' w, st.threads i = ThreadSt.parkedConf c' t w))
    (hwid : ∀ t, st.waiters t id = false) :
    InvBase cfg
      { st with
        jobs := updF st.jobs id { st.jobs id with state := JOB_RUNNING }
        threads := updF st.threads id ThreadSt.done } := by
  constructor
  · exact hreg
  · intro i hi
    simp only []
    rw [updF_other _ _ _ (by omega : i ≠ id)]
    exact houtj i hi
  · intro i hi
    simp only []
    rw [updF_other _ _ _ (by omega : i ≠ id)]
    exact houtt i hi
  · rw [hcounts]
    apply countB_congr
    intro i _
    by_cases hij : i = id
    · subst hij; simp [nonVoidB, updF, hnv]
    · simp [nonVoidB, updF, hij]
  · have h1 := countB_update_ft (n := cfg.MAX_WORKERS) (i := id)
      (p := runningB st)
      (q := runningB { st with
        jobs := updF st.jobs id { st.jobs id with state := JOB_RUNNING }
        threads := updF st.threads id ThreadSt.done })
      (by intro j hj; simp [runningB, updF, hj]) hid
      (by simp [runningB, hnr]) (by simp [runningB, updF])
    by_cases hW : (st.jobs id).state = JOB_WAIT_FOR_JOB
    · have h2 := countB_update_tf (n := cfg.MAX_WORKERS) (i := id)
        (p := waitJobB st)
        (q := waitJobB { st with
          jobs := updF st.jobs id { st.jobs id with state := JOB_RUNNING }
          threads := updF st.threads id ThreadSt.done })
        (by intro j hj; simp [waitJobB, updF, hj]) hid
        (by simp [waitJobB, hW]) (by simp [waitJobB, updF])
      rw [hW] at hactive
      simp at hactive
      dsimp only at h1 h2 ⊢
      omega
    · have h2 := countB_update_same (n := cfg.MAX_WORKERS) (i := id)
        (p := waitJobB st)
        (q := waitJobB { st with
          jobs := updF st.jobs id { st.jobs id with state := JOB_RUNNING }
          threads := updF st.threads id ThreadSt.done })
        (by intro j hj; simp [waitJobB, updF, hj])
        (by simp [waitJobB, updF, hW])
      rw [if_neg hW] at hactive
      dsimp only at h1 h2 ⊢
      omega
  · intro i
    by_cases hij : i = id
    · subst hij
      unfold threadStateOk
      simp only [updF_same]
      simp
    · have e1 : updF st.threads id ThreadSt.done i = st.threads i :=
        updF_other _ _ _ hij
      have e2 : updF st.jobs id { st.jobs id with state := JOB_RUNNING } i = st.jobs i :=
        updF_other _ _ _ hij
      have hts' := hts i hij
      unfold threadStateOk at hts' ⊢
      simp only [e1, e2]
      exact hts'
  · intro t i
    by_cases hij : i = id
    · subst hij
      simp only [updF_same]
      simp [hwid t]
    · have e1 : updF st.threads id ThreadSt.done i = st.threads i :=
        updF_other _ _ _ hij
      simp only [e1]
      exact hwt t i hij

theorem invBase_scan_park {cfg : queue_config} {st : queue_state} {id c k p : Nat}
    (hid : id < cfg.MAX_WORKERS)
    (hreg : st.registered_workers ≤ cfg.MAX_WORKERS)
    (houtj : ∀ i, cfg.MAX_WORKERS ≤ i → st.jobs i = init_worker)
    (houtt : ∀ i, cfg.MAX_WORKERS ≤ i → st.threads i = ThreadSt.done)
    (hcounts : st.registered_workers = countB cfg.MAX_WORKERS (nonVoidB st))
    (hactive : st.active_workers =
      countB cfg.MAX_WORKERS (runningB st) + countB cfg.MAX_WORKERS (waitJobB st) +
        (if (st.jobs id).state = JOB_WAIT_FOR_JOB then 0 else 1))
    (hnv : (st.jobs id).state ≠ JOB_VOID)
    (hnr : (st.jobs id).state ≠ JOB_RUNNING)
    (hctx : (st.jobs id).ctx = c)
    (hts : ∀ i, i ≠ id → threadStateOk cfg st i)
    (hwt : ∀ t i, i ≠ id →
      (st.waiters t i = true ↔ ∃ c' w, st.threads i = ThreadSt.parkedConf c' t w))
    (hwid : ∀ t, st.waiters t id = false)
    (hscan : scanFind cfg st id c k = some p) :
    InvBase cfg
      { st with
        jobs := updF st.jobs id { st.jobs id with state := JOB_WAIT_FOR_JOB }
        waiters := fun j => if j = p then updF (st.waiters p) id true else st.waiters j
        threads := updF st.threads id (ThreadSt.parkedConf c p false) } := by
  rcases scanFind_eq_some hscan with ⟨_, hpreg, hpid, _, _, _⟩
  constructor
  · exact hreg
  · intro i hi
    simp only []
    rw [updF_other _ _ _ (by omega : i ≠ id)]
    exact houtj i hi
  · intro i hi
    simp only []
    rw [updF_other _ _ _ (by omega : i ≠ id)]
    exact houtt i hi
  · rw [hcounts]
    apply countB_congr
    intro i _
    by_cases hij : i = id
    · subst hij; simp [nonVoidB, updF, hnv]
    · simp [nonVoidB, updF, hij]
  · have h1 := countB_update_same (n := cfg.MAX_WORKERS) (i := id)
      (p := runningB st)
      (q := runningB { st with
        jobs := updF st.jobs id { st.jobs id with state := JOB_WAIT_FOR_JOB }
        waiters := fun j => if j = p then updF (st.waiters p) id true else st.waiters j
        threads := updF st.threads id (ThreadSt.parkedConf c p false) })
      (by intro j hj; simp [runningB, updF, hj])
      (by simp [runningB, updF, hnr])
    by_cases hW : (st.jobs id).state = JOB_WAIT_FOR_JOB
    · have h2 := countB_update_same (n := cfg.MAX_WORKERS) (i := id)
        (p := waitJobB st)
        (q := waitJobB { st with
          jobs := updF st.jobs id { st.jobs id with state := JOB_WAIT_FOR_JOB }
          waiters := fun j => if j = p then updF (st.waiters p) id true else st.waiters j
          threads := updF st.threads id (ThreadSt.parkedConf c p false) })
        (by intro j hj; simp [waitJobB, updF, hj])
        (by simp [waitJobB, updF, hW])
      rw [hW] at hactive
      simp at hactive
      dsimp only at h1 h2 ⊢
      omega
    · have h2 := countB_update_ft (n := cfg.MAX_WORKERS) (i := id)
        (p := waitJobB st)
        (q := waitJobB { st with
          jobs := updF st.jobs id { st.jobs id with state := JOB_WAIT_FOR_JOB }
          waiters := fun j => if j = p then updF (st.waiters p) id true else st.waiters j
          threads := updF st.threads id (ThreadSt.parkedConf c p false) })
        (by intro j hj; simp [waitJobB, updF, hj]) hid
        (by simp [waitJobB, hW]) (by simp [waitJobB, updF])
      rw [if_neg hW] at hactive
      dsimp only at h1 h2 ⊢
      omega
  · intro i
    by_cases hij : i = id
    · subst hij
      unfold threadStateOk
      simp only [updF_same]
      simp [hctx, hpid, show p < cfg.MAX_WORKERS from by omega]
    · have e1 : updF st.threads id (ThreadSt.parkedConf c p false) i = st.threads i :=
        updF_other _ _ _ hij
      have e2 : updF st.jobs id { st.jobs id with state := JOB_WAIT_FOR_JOB } i = st.jobs i :=
        updF_other _ _ _ hij
      have hts' := hts i hij
      unfold threadStateOk at hts' ⊢
      simp only [e1, e2]
      exact hts'
  · intro t i
    by_cases hij : i = id
    · subst hij
      simp only [updF_same]
      by_cases htp : t = p
      · subst htp
        simp [updF_same]
      · simp only [if_neg htp]
        rw [hwid t]
        simp
        omega
    · have e1 : updF st.threads id (ThreadSt.parkedConf c p false) i = st.threads i :=
        updF_other _ _ _ hij
      have e2 : (if t = p then updF (st.waiters p) id true else st.waiters t) i =
          st.waiters t i := by
        by_cases htp : t = p
        · subst htp
          simp [updF, hij]
        · simp [htp]
      simp only [e1, e2]
      exact hwt t i hij

theorem invBase_scan_step {cfg : queue_config} {st : queue_state} (id : Nat) {c k : Nat}
    (hid : id < cfg.MAX_WORKERS)
    (hreg : st.registered_workers ≤ cfg.MAX_WORKERS)
    (houtj : ∀ i, cfg.MAX_WORKERS ≤ i → st.jobs i = init_worker)
    (houtt : ∀ i, cfg.MAX_WORKERS ≤ i → st.threads i = ThreadSt.done)
    (hcounts : st.registered_workers = countB cfg.MAX_WORKERS (nonVoidB st))
    (hactive : st.active_workers =
      countB cfg.MAX_WORKERS (runningB st) + countB cfg.MAX_WORKERS (waitJobB st) +
        (if (st.jobs id).state = JOB_WAIT_FOR_JOB then 0 else 1))
    (hnv : (st.jobs id).state ≠ JOB_VOID)
    (hnr : (st.jobs id).state ≠ JOB_RUNNING)
    (hctx : (st.jobs id).ctx = c)
    (hts : ∀ i, i ≠ id → threadStateOk cfg st i)
    (hwt : ∀ t i, i ≠ id →
      (st.waiters t i = true ↔ ∃ c' w, st.threads i = ThreadSt.parkedConf c' t w))
    (hwid : ∀ t, st.waiters t id = false) :
    InvBase cfg (start_scan_step cfg st id c k) := by
  unfold start_scan_step
  rcases hscan : scanFind cfg st id c k with _ | p
  · exact invBase_scan_complete hid hreg houtj houtt hcounts hactive hnv hnr hts hwt hwid
  · exact invBase_scan_park hid hreg houtj houtt hcounts hactive hnv hnr hctx hts hwt hwid hscan

/-- `threadStateOk` only looks at slot `i`'s job record and thread. -/
theorem threadStateOk_transport {cfg : queue_config} (st : queue_state) {st' : queue_state} {i : Nat}
    (hj : st'.jobs i = st.jobs i) (ht : st'.threads i = st.threads i)
    (h : threadStateOk cfg st i) : threadStateOk cfg st' i := by
  unfold threadStateOk at h ⊢
  rw [hj, ht]
  exact h

/-- `threadStateOk` survives a signal (`wakeThread`). -/
theorem threadStateOk_wake {cfg : queue_config} (st : queue_state) {st' : queue_state} {i : Nat}
    (hj : st'.jobs i = st.jobs i) (ht : st'.threads i = wakeThread (st.threads i))
    (h : threadStateOk cfg st i) : threadStateOk cfg st' i := by
  unfold threadStateOk at h ⊢
  rw [hj, ht]
  rcases hth : st.threads i with _ | ⟨c, w⟩ | ⟨c, p, w⟩ <;> rw [hth] at h <;>
    simp [wakeThread] <;> exact h

/-- A signal does not change whether a thread is conflict-parked on `t`. -/
theorem wake_parkedConf_iff (th : ThreadSt) (t : Nat) :
    (∃ c w, wakeThread th = ThreadSt.parkedConf c t w) ↔
      (∃ c w, th = ThreadSt.parkedConf c t w) := by
  rcases th with _ | ⟨c, w⟩ | ⟨c, p, w⟩ <;> simp [wakeThread]

theorem invBase_register_rec {cfg : queue_config} {st : queue_state} {id c : Nat}
    (hInv : InvBase cfg st)
    (hid : id < cfg.MAX_WORKERS)
    (hv : (st.jobs id).state ≠ JOB_VOID)
    (hrun : (st.jobs id).state ≠ JOB_RUNNING)
    (hth : st.threads id = ThreadSt.done) :
    InvBase cfg
      { st with jobs := updF st.jobs id { st.jobs id with state := JOB_REGISTERED, ctx := c } } := by
  have htsid : (st.jobs id).state ≠ JOB_WAIT_QUEUE_ENTER ∧
      (st.jobs id).state ≠ JOB_WAIT_FOR_JOB := by
    have h := hInv.ts id
    unfold threadStateOk at h
    rw [hth] at h
    exact h
  constructor
  · exact hInv.reg_le
  · intro i hi
    simp only []
    rw [updF_other _ _ _ (by omega : i ≠ id)]
    exact hInv.out_jobs i hi
  · intro i hi
    exact hInv.out_threads i hi
  · rw [hInv.counts]
    apply countB_congr
    intro i _
    by_cases hij : i = id
    · subst hij; simp [nonVoidB, updF, hv]
    · simp [nonVoidB, updF, hij]
  · have h1 := countB_update_same (n := cfg.MAX_WORKERS) (i := id)
      (p := runningB st)
      (q := runningB { st with
        jobs := updF st.jobs id { st.jobs id with state := JOB_REGISTERED, ctx := c } })
      (by intro j hj; simp [runningB, updF, hj])
      (by simp [runningB, updF, hrun])
    have h2 := countB_update_same (n := cfg.MAX_WORKERS) (i := id)
      (p := waitJobB st)
      (q := waitJobB { st with
        jobs := updF st.jobs id { st.jobs id with state := JOB_REGISTERED, ctx := c } })
      (by intro j hj; simp [waitJobB, updF, hj])
      (by simp [waitJobB, updF, htsid.2])
    have h3 := hInv.active_eq
    dsimp only at h1 h2 ⊢
    omega
  · intro i
    by_cases hij : i = id
    · subst hij
      unfold threadStateOk
      simp only [hth, updF_same]
      simp
    · refine threadStateOk_transport st ?_ rfl (hInv.ts i)
      simp only []
      rw [updF_other _ _ _ hij]
  · intro t i
    exact hInv.wt t i

theorem invBase_register {cfg : queue_config} {st : queue_state} {id c : Nat}
    (hInv : InvBase cfg st)
    (hid : id < cfg.MAX_WORKERS)
    (hv : (st.jobs id).state ≠ JOB_VOID)
    (hth : st.threads id = ThreadSt.done) :
    InvBase cfg (job_queue_register_job st id c).2 := by
  unfold job_queue_register_job
  by_cases hrun : (st.jobs id).state = JOB_RUNNING
  · rw [if_pos hrun]
    exact hInv
  · rw [if_neg hrun]
    exact invBase_register_rec hInv hid hv hrun hth

theorem waiters_false {cfg : queue_config} {st : queue_state} {t id : Nat}
    (hInv : InvBase cfg st)
    (h : ∀ c' w, st.threads id ≠ ThreadSt.parkedConf c' t w) :
    st.waiters t id = false := by
  cases hw : st.waiters t id
  · rfl
  · rcases (hInv.wt t id).1 hw with ⟨c', w, hc⟩
    exact absurd hc (h c' w)

theorem invBase_parkCap_rec {cfg : queue_config} {st : queue_state} {id c : Nat}
    (hInv : InvBase cfg st)
    (hid : id < cfg.MAX_WORKERS)
    (hv : (st.jobs id).state ≠ JOB_VOID)
    (hrun : (st.jobs id).state ≠ JOB_RUNNING)
    (hth : st.threads id = ThreadSt.done) :
    InvBase cfg
      { st with
        jobs := updF st.jobs id { st.jobs id with state := JOB_WAIT_QUEUE_ENTER }
        threads := updF st.threads id (ThreadSt.parkedCap c false) } := by
  have htsid : (st.jobs id).state ≠ JOB_WAIT_QUEUE_ENTER ∧
      (st.jobs id).state ≠ JOB_WAIT_FOR_JOB := by
    have h := hInv.ts id
    unfold threadStateOk at h
    rw [hth] at h
    exact h
  constructor
  · exact hInv.reg_le
  · intro i hi
    simp only []
    rw [updF_other _ _ _ (by omega : i ≠ id)]
    exact hInv.out_jobs i hi
  · intro i hi
    simp only []
    rw [updF_other _ _ _ (by omega : i ≠ id)]
    exact hInv.out_threads i hi
  · rw [hInv.counts]
    apply countB_congr
    intro i _
    by_cases hij : i = id
    · subst hij; simp [nonVoidB, updF, hv]
    · simp [nonVoidB, updF, hij]
  · have h1 := countB_update_same (n := cfg.MAX_WORKERS) (i := id)
      (p := runningB st)
      (q := runningB { st with
        jobs := updF st.jobs id { st.jobs id with state := JOB_WAIT_QUEUE_ENTER }
        threads := updF st.threads id (ThreadSt.parkedCap c false) })
      (by intro j hj; simp [runningB, updF, hj])
      (by simp [runningB, updF, hrun])
    have h2 := countB_update_same (n := cfg.MAX_WORKERS) (i := id)
      (p := waitJobB st)
      (q := waitJobB { st with
        jobs := updF st.jobs id { st.jobs id with state := JOB_WAIT_QUEUE_ENTER }
        threads := updF st.threads id (ThreadSt.parkedCap c false) })
      (by intro j hj; simp [waitJobB, updF, hj])
      (by simp [waitJobB, updF, htsid.2])
    have h3 := hInv.active_eq
    dsimp only at h1 h2 ⊢
    omega
  · intro i
    by_cases hij : i = id
    · subst hij
      unfold threadStateOk
      simp only [updF_same]
    · refine threadStateOk_transport st ?_ ?_ (hInv.ts i)
      · simp only []
        rw [updF_other _ _ _ hij]
      · simp only []
        rw [updF_other _ _ _ hij]
  · intro t i
    by_cases hij : i = id
    · subst hij
      simp only [updF_same]
      rw [waiters_false hInv (by intro c' w hc; rw [hth] at hc; exact absurd hc (by simp))]
      simp
    · simp only []
      rw [updF_other _ _ _ hij]
      exact hInv.wt t i

theorem invBase_startCall {cfg : queue_config} {st : queue_state} {id c : Nat}
    (hInv : InvBase cfg st)
    (hid : id < cfg.MAX_WORKERS)
    (hv : (st.jobs id).state ≠ JOB_VOID)
    (hth : st.threads id = ThreadSt.done) :
    InvBase cfg (job_queue_start_job cfg st id c).2 := by
  have htsid : (st.jobs id).state ≠ JOB_WAIT_QUEUE_ENTER ∧
      (st.jobs id).state ≠ JOB_WAIT_FOR_JOB := by
    have h := hInv.ts id
    unfold threadStateOk at h
    rw [hth] at h
    exact h
  unfold job_queue_start_job
  by_cases hrun : (st.jobs id).state = JOB_RUNNING
  · rw [if_pos hrun]
    exact hInv
  · rw [if_neg hrun]
    by_cases hfull : st.active_workers = cfg.max_concurrent_workers
    · rw [if_pos hfull]
      exact invBase_parkCap_rec hInv hid hv hrun hth
    · rw [if_neg hfull]
      show InvBase cfg (start_engage cfg st id c)
      unfold start_engage
      apply invBase_scan_step id (c := c) hid
      next => exact hInv.reg_le
      next =>
        intro i hi
        dsimp only
        rw [updF_other _ _ _ (by omega : i ≠ id)]
        exact hInv.out_jobs i hi
      next =>
        intro i hi
        exact hInv.out_threads i hi
      next =>
        dsimp only
        rw [hInv.counts]
        apply countB_congr
        intro i _
        by_cases hij : i = id
        · subst hij; simp [nonVoidB, updF]
        · simp [nonVoidB, updF, hij]
      next =>
        have h1 := countB_update_same (n := cfg.MAX_WORKERS) (i := id)
          (p := runningB st)
          (q := runningB { st with
            active_workers := st.active_workers + 1
            jobs := updF st.jobs id { st.jobs id with ctx := c } })
          (by intro j hj; simp [runningB, updF, hj])
          (by simp [runningB, updF])
        have h2 := countB_update_same (n := cfg.MAX_WORKERS) (i := id)
          (p := waitJobB st)
          (q := waitJobB { st with
            active_workers := st.active_workers + 1
            jobs := updF st.jobs id { st.jobs id with ctx := c } })
          (by intro j hj; simp [waitJobB, updF, hj])
          (by simp [waitJobB, updF])
        have h3 := hInv.active_eq
        have h4 : (updF st.jobs id { st.jobs id with ctx := c } id).state =
            (st.jobs id).state := by
          simp [updF]
        dsimp only at h1 h2 ⊢
        rw [h4, if_neg htsid.2]
        omega
      next =>
        dsimp only
        rw [updF_same]
        exact hv
      next =>
        dsimp only
        rw [updF_same]
        exact hrun
      next =>
        dsimp only
        rw [updF_same]
      next =>
        intro i hij
        refine threadStateOk_transport st ?_ rfl (hInv.ts i)
        dsimp only
        rw [updF_other _ _ _ hij]
      next =>
        intro t i _
        exact hInv.wt t i
      next =>
        intro t
        show st.waiters t id = false
        exact waiters_false hInv (by intro c' w hc; rw [hth] at hc; exact absurd hc (by simp))

theorem invBase_resumeCap {cfg : queue_config} {st : queue_state} {id c : Nat}
    (hInv : InvBase cfg st)
    (h : st.threads id = ThreadSt.parkedCap c true) :
    InvBase cfg (start_resume_capacity cfg st id c) := by
  have hstid : (st.jobs id).state = JOB_WAIT_QUEUE_ENTER := by
    have hts := hInv.ts id
    unfold threadStateOk at hts
    rw [h] at hts
    exact hts
  have hid : id < cfg.MAX_WORKERS := by
    by_contra hcon
    have := hInv.out_threads id (by omega)
    rw [this] at h
    exact absurd h (by simp)
  unfold start_resume_capacity start_engage
  apply invBase_scan_step id (c := c) hid
  next => exact hInv.reg_le
  next =>
    intro i hi
    dsimp only
    rw [updF_other _ _ _ (by omega : i ≠ id)]
    exact hInv.out_jobs i hi
  next =>
    intro i hi
    dsimp only
    rw [updF_other _ _ _ (by omega : i ≠ id)]
    exact hInv.out_threads i hi
  next =>
    dsimp only
    rw [hInv.counts]
    apply countB_congr
    intro i _
    by_cases hij : i = id
    · subst hij; simp [nonVoidB, updF]
    · simp [nonVoidB, updF, hij]
  next =>
    have h1 := countB_update_same (n := cfg.MAX_WORKERS) (i := id)
      (p := runningB st)
      (q := runningB { st with
        active_workers := st.active_workers + 1
        jobs := updF st.jobs id { st.jobs id with ctx := c }
        threads := updF st.threads id ThreadSt.done })
      (by intro j hj; simp [runningB, updF, hj])
      (by simp [runningB, updF])
    have h2 := countB_update_same (n := cfg.MAX_WORKERS) (i := id)
      (p := waitJobB st)
      (q := waitJobB { st with
        active_workers := st.active_workers + 1
        jobs := updF st.jobs id { st.jobs id with ctx := c }
        threads := updF st.threads id ThreadSt.done })
      (by intro j hj; simp [waitJobB, updF, hj])
      (by simp [waitJobB, updF])
    have h3 := hInv.active_eq
    have h4 : (updF st.jobs id { st.jobs id with ctx := c } id).state =
        (st.jobs id).state := by
      simp [updF]
    dsimp only at h1 h2 ⊢
    rw [h4, if_neg (show ¬(st.jobs id).state = JOB_WAIT_FOR_JOB by simp [hstid])]
    omega
  next =>
    dsimp only
    rw [updF_same]
    show ({ st.jobs id with ctx := c } : job_worker).state ≠ JOB_VOID
    dsimp only
    rw [hstid]
    simp
  next =>
    dsimp only
    rw [updF_same]
    show ({ st.jobs id with ctx := c } : job_worker).state ≠ JOB_RUNNING
    dsimp only
    rw [hstid]
    simp
  next =>
    dsimp only
    rw [updF_same]
  next =>
    intro i hij
    refine threadStateOk_transport st ?_ ?_ (hInv.ts i)
    · dsimp only
      rw [updF_other _ _ _ hij]
    · dsimp only
      rw [updF_other _ _ _ hij]
  next =>
    intro t i hij
    dsimp only
    rw [updF_other _ _ _ hij]
    exact hInv.wt t i
  next =>
    intro t
    show st.waiters t id = false
    exact waiters_false hInv (by intro c' w hc; rw [h] at hc; exact absurd hc (by simp))

theorem invBase_resumeConf {cfg : queue_config} {st : queue_state} {id c p : Nat}
    (hInv : InvBase cfg st)
    (h : st.threads id = ThreadSt.parkedConf c p true) :
    InvBase cfg (start_resume_conflict cfg st id c p) := by
  have hts0 := hInv.ts id
  unfold threadStateOk at hts0
  rw [h] at hts0
  rcases hts0 with ⟨hWFJ, hctx0, hpcap, hpid⟩
  have hid : id < cfg.MAX_WORKERS := by
    by_contra hcon
    have := hInv.out_threads id (by omega)
    rw [this] at h
    exact absurd h (by simp)
  unfold start_resume_conflict
  apply invBase_scan_step id (c := c) hid
  next => exact hInv.reg_le
  next =>
    intro i hi
    exact hInv.out_jobs i hi
  next =>
    intro i hi
    dsimp only
    rw [updF_other _ _ _ (by omega : i ≠ id)]
    exact hInv.out_threads i hi
  next =>
    dsimp only
    rw [hInv.counts]
    apply countB_congr
    intro i _
    rfl
  next =>
    dsimp only
    rw [if_pos hWFJ]
    have h1 : countB cfg.MAX_WORKERS (runningB { st with
        waiters := fun j => if j = p then updF (st.waiters p) id false else st.waiters j
        threads := updF st.threads id ThreadSt.done }) =
        countB cfg.MAX_WORKERS (runningB st) :=
      countB_congr (fun i _ => rfl)
    have h2 : countB cfg.MAX_WORKERS (waitJobB { st with
        waiters := fun j => if j = p then updF (st.waiters p) id false else st.waiters j
        threads := updF st.threads id ThreadSt.done }) =
        countB cfg.MAX_WORKERS (waitJobB st) :=
      countB_congr (fun i _ => rfl)
    have h3 := hInv.active_eq
    omega
  next =>
    show (st.jobs id).state ≠ JOB_VOID
    rw [hWFJ]
    simp
  next =>
    show (st.jobs id).state ≠ JOB_RUNNING
    rw [hWFJ]
    simp
  next =>
    exact hctx0
  next =>
    intro i hij
    refine threadStateOk_transport st rfl ?_ (hInv.ts i)
    dsimp only
    rw [updF_other _ _ _ hij]
  next =>
    intro t i hij
    dsimp only
    have e1 : updF st.threads id ThreadSt.done i = st.threads i := updF_other _ _ _ hij
    have e2 : (if t = p then updF (st.waiters p) id false else st.waiters t) i =
        st.waiters t i := by
      by_cases htp : t = p
      · subst htp
        simp [updF, hij]
      · simp [htp]
    rw [e1, e2]
    exact hInv.wt t i
  next =>
    intro t
    dsimp only
    by_cases htp : t = p
    · subst htp
      simp [updF]
    · rw [if_neg htp]
      refine waiters_false hInv ?_
      intro c' w hc
      rw [h] at hc
      injection hc with h1 h2 h3
      exact htp h2.symm

theorem invBase_release {cfg : queue_config} {st : queue_state} (id : Nat)
    (hInv : InvBase cfg st) :
    InvBase cfg (release_my_waiters st id) := by
  constructor
  · exact hInv.reg_le
  · intro i hi
    exact hInv.out_jobs i hi
  · intro i hi
    have hw : st.waiters id i = false :=
      waiters_false hInv (by
        intro c' w hc
        rw [hInv.out_threads i hi] at hc
        exact absurd hc (by simp))
    show (if i < st.registered_workers && st.waiters id i then
        wakeThread (st.threads i) else st.threads i) = ThreadSt.done
    rw [hw]
    simp [hInv.out_threads i hi]
  · exact hInv.counts
  · exact hInv.active_eq
  · intro i
    by_cases hcond : (i < st.registered_workers && st.waiters id i) = true
    · refine threadStateOk_wake st rfl ?_ (hInv.ts i)
      show (if i < st.registered_workers && st.waiters id i then
          wakeThread (st.threads i) else st.threads i) = wakeThread (st.threads i)
      rw [if_pos hcond]
    · refine threadStateOk_transport st rfl ?_ (hInv.ts i)
      show (if i < st.registered_workers && st.waiters id i then
          wakeThread (st.threads i) else st.threads i) = st.threads i
      rw [if_neg hcond]
  · intro t i
    show st.waiters t i = true ↔ ∃ c w,
      (if i < st.registered_workers && st.waiters id i then
        wakeThread (st.threads i) else st.threads i) = ThreadSt.parkedConf c t w
    by_cases hcond : (i < st.registered_workers && st.waiters id i) = true
    · rw [if_pos hcond, wake_parkedConf_iff]
      exact hInv.wt t i
    · rw [if_neg hcond]
      exact hInv.wt t i

theorem invBase_wake {cfg : queue_config} {st : queue_state} {m : Nat}
    (hInv : InvBase cfg st) (hm : m < cfg.MAX_WORKERS) :
    InvBase cfg { st with threads := updF st.threads m (wakeThread (st.threads m)) } := by
  constructor
  · exact hInv.reg_le
  · intro i hi
    exact hInv.out_jobs i hi
  · intro i hi
    simp only []
    rw [updF_other _ _ _ (by omega : i ≠ m)]
    exact hInv.out_threads i hi
  · exact hInv.counts
  · exact hInv.active_eq
  · intro i
    by_cases him : i = m
    · subst him
      refine threadStateOk_wake st rfl ?_ (hInv.ts i)
      simp only []
      rw [updF_same]
    · refine threadStateOk_transport st rfl ?_ (hInv.ts i)
      simp only []
      rw [updF_other _ _ _ him]
  · intro t i
    by_cases him : i = m
    · subst him
      simp only [updF_same]
      rw [wake_parkedConf_iff]
      exact hInv.wt t i
    · simp only []
      rw [updF_other _ _ _ him]
      exact hInv.wt t i

/-- Setting a non-running, non-waiting slot `JOB_IDLE` with cleared ctx
preserves the invariant. -/
theorem invBase_set_idle_rec {cfg : queue_config} {st : queue_state} {id : Nat}
    (hInv : InvBase cfg st)
    (hid : id < cfg.MAX_WORKERS)
    (hnv : (st.jobs id).state ≠ JOB_VOID)
    (hnr : (st.jobs id).state ≠ JOB_RUNNING)
    (hth : st.threads id = ThreadSt.done) :
    InvBase cfg
      { st with jobs := updF st.jobs id { st.jobs id with state := JOB_IDLE, ctx := 0 } } := by
  have htsid : (st.jobs id).state ≠ JOB_WAIT_QUEUE_ENTER ∧
      (st.jobs id).state ≠ JOB_WAIT_FOR_JOB := by
    have h := hInv.ts id
    unfold threadStateOk at h
    rw [hth] at h
    exact h
  constructor
  · exact hInv.reg_le
  · intro i hi
    simp only []
    rw [updF_other _ _ _ (by omega : i ≠ id)]
    exact hInv.out_jobs i hi
  · intro i hi
    exact hInv.out_threads i hi
  · rw [hInv.counts]
    apply countB_congr
    intro i _
    by_cases hij : i = id
    · subst hij; simp [nonVoidB, updF, hnv]
    · simp [nonVoidB, updF, hij]
  · have h1 := countB_update_same (n := cfg.MAX_WORKERS) (i := id)
      (p := runningB st)
      (q := runningB { st with
        jobs := updF st.jobs id { st.jobs id with state := JOB_IDLE, ctx := 0 } })
      (by intro j hj; simp [runningB, updF, hj])
      (by simp [runningB, updF, hnr])
    have h2 := countB_update_same (n := cfg.MAX_WORKERS) (i := id)
      (p := waitJobB st)
      (q := waitJobB { st with
        jobs := updF st.jobs id { st.jobs id with state := JOB_IDLE, ctx := 0 } })
      (by intro j hj; simp [waitJobB, updF, hj])
      (by simp [waitJobB, updF, htsid.2])
    have h3 := hInv.active_eq
    dsimp only at h1 h2 ⊢
    omega
  · intro i
    by_cases hij : i = id
    · subst hij
      unfold threadStateOk
      simp only [hth, updF_same]
      simp
    · refine threadStateOk_transport st ?_ rfl (hInv.ts i)
      simp only []
      rw [updF_other _ _ _ hij]
  · intro t i
    exact hInv.wt t i

/-- Setting an idle slot `JOB_VOID` and decrementing `registered_workers`
preserves the invariant. -/
theorem invBase_set_void_rec {cfg : queue_config} {st : queue_state} {id : Nat}
    (hInv : InvBase cfg st)
    (hid : id < cfg.MAX_WORKERS)
    (hidle : (st.jobs id).state = JOB_IDLE)
    (hth : st.threads id = ThreadSt.done) :
    InvBase cfg
      { st with
        registered_workers := st.registered_workers - 1
        jobs := updF st.jobs id { st.jobs id with state := JOB_VOID } } := by
  have hcnt := countB_update_tf (n := cfg.MAX_WORKERS) (i := id)
    (p := nonVoidB st)
    (q := nonVoidB { st with
      registered_workers := st.registered_workers - 1
      jobs := updF st.jobs id { st.jobs id with state := JOB_VOID } })
    (by intro j hj; simp [nonVoidB, updF, hj]) hid
    (by simp [nonVoidB, hidle]) (by simp [nonVoidB, updF])
  constructor
  · have := hInv.reg_le
    simp only []
    omega
  · intro i hi
    simp only []
    rw [updF_other _ _ _ (by omega : i ≠ id)]
    exact hInv.out_jobs i hi
  · intro i hi
    exact hInv.out_threads i hi
  · have hc := hInv.counts
    dsimp only at hcnt ⊢
    omega
  · have h1 := countB_update_same (n := cfg.MAX_WORKERS) (i := id)
      (p := runningB st)
      (q := runningB { st with
        registered_workers := st.registered_workers - 1
        jobs := updF st.jobs id { st.jobs id with state := JOB_VOID } })
      (by intro j hj; simp [runningB, updF, hj])
      (by simp [runningB, updF, hidle])
    have h2 := countB_update_same (n := cfg.MAX_WORKERS) (i := id)
      (p := waitJobB st)
      (q := waitJobB { st with
        registered_workers := st.registered_workers - 1
        jobs := updF st.jobs id { st.jobs id with state := JOB_VOID } })
      (by intro j hj; simp [waitJobB, updF, hj])
      (by simp [waitJobB, updF, hidle])
    have h3 := hInv.active_eq
    dsimp only at h1 h2 ⊢
    omega
  · intro i
    by_cases hij : i = id
    · subst hij
      unfold threadStateOk
      simp only [hth, updF_same]
      simp
    · refine threadStateOk_transport st ?_ rfl (hInv.ts i)
      simp only []
      rw [updF_other _ _ _ hij]
  · intro t i
    exact hInv.wt t i

theorem invBase_remove {cfg : queue_config} {st : queue_state} {id : Nat}
    (hInv : InvBase cfg st)
    (hid : id < cfg.MAX_WORKERS)
    (hst : (st.jobs id).state = JOB_IDLE ∨ (st.jobs id).state = JOB_REGISTERED)
    (hth : st.threads id = ThreadSt.done) :
    InvBase cfg (job_queue_remove_worker st id) := by
  unfold job_queue_remove_worker
  dsimp only
  by_cases hREG : (st.jobs id).state = JOB_REGISTERED
  · rw [if_pos hREG]
    have hInvM : InvBase cfg
        { st with jobs := updF st.jobs id { st.jobs id with state := JOB_IDLE, ctx := 0 } } :=
      invBase_set_idle_rec hInv hid (by rw [hREG]; simp) (by rw [hREG]; simp) hth
    have hInvR := invBase_release id hInvM
    have hidle : ((release_my_waiters
        { st with jobs := updF st.jobs id { st.jobs id with state := JOB_IDLE, ctx := 0 } }
        id).jobs id).state = JOB_IDLE := by
      show (updF st.jobs id { st.jobs id with state := JOB_IDLE, ctx := 0 } id).state = JOB_IDLE
      rw [updF_same]
    have hth1 : (release_my_waiters
        { st with jobs := updF st.jobs id { st.jobs id with state := JOB_IDLE, ctx := 0 } }
        id).threads id = ThreadSt.done := by
      show (if id < st.registered_workers && st.waiters id id then
          wakeThread (st.threads id) else st.threads id) = ThreadSt.done
      rw [waiters_false hInv (by intro c' w hc; rw [hth] at hc; exact absurd hc (by simp))]
      simp [hth]
    exact invBase_set_void_rec hInvR hid hidle hth1
  · rw [if_neg hREG]
    have hidle : (st.jobs id).state = JOB_IDLE := by
      rcases hst with h | h
      · exact h
      · exact absurd h hREG
    exact invBase_set_void_rec hInv hid hidle hth

/-- A running slot ended: decrement `active_workers`, set it idle, clear ctx. -/
theorem invBase_end_running_rec {cfg : queue_config} {st : queue_state} {id : Nat}
    (hInv : InvBase cfg st)
    (hid : id < cfg.MAX_WORKERS)
    (hR : (st.jobs id).state = JOB_RUNNING)
    (hth : st.threads id = ThreadSt.done) :
    InvBase cfg
      { st with
        active_workers := st.active_workers - 1
        jobs := updF st.jobs id { st.jobs id with state := JOB_IDLE, ctx := 0 } } := by
  constructor
  · exact hInv.reg_le
  · intro i hi
    simp only []
    rw [updF_other _ _ _ (by omega : i ≠ id)]
    exact hInv.out_jobs i hi
  · intro i hi
    exact hInv.out_threads i hi
  · rw [hInv.counts]
    apply countB_congr
    intro i _
    by_cases hij : i = id
    · subst hij; simp [nonVoidB, updF, hR]
    · simp [nonVoidB, updF, hij]
  · have h1 := countB_update_tf (n := cfg.MAX_WORKERS) (i := id)
      (p := runningB st)
      (q := runningB { st with
        active_workers := st.active_workers - 1
        jobs := updF st.jobs id { st.jobs id with state := JOB_IDLE, ctx := 0 } })
      (by intro j hj; simp [runningB, updF, hj]) hid
      (by simp [runningB, hR]) (by simp [runningB, updF])
    have h2 := countB_update_same (n := cfg.MAX_WORKERS) (i := id)
      (p := waitJobB st)
      (q := waitJobB { st with
        active_workers := st.active_workers - 1
        jobs := updF st.jobs id { st.jobs id with state := JOB_IDLE, ctx := 0 } })
      (by intro j hj; simp [waitJobB, updF, hj])
      (by simp [waitJobB, updF, hR])
    have h3 := hInv.active_eq
    dsimp only at h1 h2 ⊢
    omega
  · intro i
    by_cases hij : i = id
    · subst hij
      unfold threadStateOk
      simp only [hth, updF_same]
      simp
    · refine threadStateOk_transport st ?_ rfl (hInv.ts i)
      simp only []
      rw [updF_other _ _ _ hij]
  · intro t i
    exact hInv.wt t i

theorem end_phase1_registered (st : queue_state) (id : Nat) :
    (end_phase1 st id).registered_workers = st.registered_workers := by
  unfold end_phase1
  dsimp only
  split <;> rfl

theorem invBase_end_phase1 {cfg : queue_config} {st : queue_state} {id : Nat}
    (hInv : InvBase cfg st)
    (hid : id < cfg.MAX_WORKERS)
    (hv : (st.jobs id).state = JOB_RUNNING ∨ (st.jobs id).state = JOB_REGISTERED)
    (hth : st.threads id = ThreadSt.done) :
    InvBase cfg (end_phase1 st id) := by
  have hInv1 := invBase_release id hInv
  have hth1 : (release_my_waiters st id).threads id = ThreadSt.done := by
    show (if id < st.registered_workers && st.waiters id id then
        wakeThread (st.threads id) else st.threads id) = ThreadSt.done
    rw [waiters_false hInv (by intro c' w hc; rw [hth] at hc; exact absurd hc (by simp))]
    simp [hth]
  unfold end_phase1
  dsimp only
  by_cases hR : (st.jobs id).state = JOB_RUNNING
  · rw [if_pos (show ((release_my_waiters st id).jobs id).state = JOB_RUNNING from hR)]
    exact invBase_end_running_rec hInv1 hid hR hth1
  · rw [if_neg (show ¬((release_my_waiters st id).jobs id).state = JOB_RUNNING from hR)]
    have hREG : (st.jobs id).state = JOB_REGISTERED := by
      rcases hv with h | h
      · exact absurd h hR
      · exact h
    refine invBase_set_idle_rec hInv1 hid ?_ hR hth1
    show (st.jobs id).state ≠ JOB_VOID
    rw [hREG]
    simp

theorem invBase_end {cfg : queue_config} {st : queue_state} {id : Nat}
    (hInv : InvBase cfg st)
    (hid : id < cfg.MAX_WORKERS)
    (hth : st.threads id = ThreadSt.done) :
    InvBase cfg (job_queue_end_job cfg st id).2 := by
  unfold job_queue_end_job
  by_cases hbad : (st.jobs id).state ≠ JOB_RUNNING ∧ (st.jobs id).state ≠ JOB_REGISTERED
  · rw [if_pos hbad]
    exact hInv
  · rw [if_neg hbad]
    have hv : (st.jobs id).state = JOB_RUNNING ∨ (st.jobs id).state = JOB_REGISTERED := by
      rcases not_and_or.1 hbad with h | h
      · left
        exact not_not.1 h
      · right
        exact not_not.1 h
    have hInv3 := invBase_end_phase1 hInv hid hv hth
    dsimp only
    rcases hreq : requeue_min cfg (end_phase1 st id) with _ | m
    · exact hInv3
    · have hm : m < cfg.MAX_WORKERS := by
        have hmem := requeue_min_loop_mem (m := none) hreq
      -- requeue_min unfolds to the fold over range
        rcases hmem with ⟨_, hmem⟩ | hbadacc
        · have := List.mem_range.1 hmem
          have h2 := end_phase1_registered st id
          have h3 := hInv.reg_le
          omega
        · exact absurd hbadacc (by simp)
      exact invBase_wake hInv3 hm

theorem countB_eq_zero {n : Nat} {p : Nat → Bool} (h : ∀ i, i < n → p i = false) :
    countB n p = 0 := by
  induction n with
  | zero => simp [countB]
  | succ n ih =>
      rw [countB_succ, h n (by omega), ih (fun i hi => h i (by omega))]
      simp

/-- The queue as created satisfies the base invariant. -/
theorem invBase_create (MW max_workers : Nat) (ct : Nat → Nat → Bool)
    (cmp : Nat → Nat → Int) :
    InvBase (job_queue_create MW max_workers ct cmp).1
      (job_queue_create MW max_workers ct cmp).2 := by
  unfold job_queue_create
  constructor
  · simp
  · intro i _
    rfl
  · intro i _
    rfl
  · rw [countB_eq_zero (fun i _ => by simp [nonVoidB, init_worker])]
  · rw [countB_eq_zero (fun i _ => by simp [runningB, init_worker]),
      countB_eq_zero (fun i _ => by simp [waitJobB, init_worker])]
  · intro i
    unfold threadStateOk
    simp [init_worker]
  · intro t i
    simp

/-- Every transition preserves the base invariant. -/
theorem invBase_step {cfg : queue_config} {ar : Bool} {st st' : queue_state}
    (hInv : InvBase cfg st) (hstep : Step cfg ar st st') : InvBase cfg st' := by
  cases hstep with
  | newWorker ty id st' h => exact invBase_newWorker hInv h
  | removeWorker id har hid hst hth => exact invBase_remove hInv hid hst hth
  | registerJob id c hid hv hth => exact invBase_register hInv hid hv hth
  | startCall id c hid hv hth => exact invBase_startCall hInv hid hv hth
  | resumeCap id c h => exact invBase_resumeCap hInv h
  | resumeConf id c p h => exact invBase_resumeConf hInv h
  | endCall id hid hv hth => exact invBase_end hInv hid hth

/-- The base invariant holds in every reachable state. -/
theorem invBase_reachable {cfg : queue_config} {ar : Bool} {st0 st : queue_state}
    (h0 : InvBase cfg st0) (h : Reachable cfg ar st0 st) : InvBase cfg st := by
  induction h with
  | init => exact h0
  | step _ hstep ih => exact invBase_step ih hstep

theorem wakeThread_idem (t : ThreadSt) : wakeThread (wakeThread t) = wakeThread t := by
  rcases t with _ | ⟨c, w⟩ | ⟨c, p, w⟩ <;> simp [wakeThread]

theorem countB_le (n : Nat) (p : Nat → Bool) : countB n p ≤ n := by
  induction n with
  | zero => simp [countB]
  | succ n ih =>
      rw [countB_succ]
      by_cases h : p n = true
      · rw [h]; simp; omega
      · simp only [Bool.not_eq_true] at h
        rw [h]; simp; omega

/-- Field-level description of `end_phase1`. -/
theorem end_phase1_spec (st : queue_state) (id : Nat) :
    ((end_phase1 st id).jobs id).state = JOB_IDLE ∧
    ((end_phase1 st id).jobs id).ctx = 0 ∧
    (∀ i, i ≠ id → (end_phase1 st id).jobs i = st.jobs i) ∧
    (end_phase1 st id).registered_workers = st.registered_workers ∧
    (end_phase1 st id).waiters = st.waiters ∧
    (end_phase1 st id).active_workers =
      (if (st.jobs id).state = JOB_RUNNING then st.active_workers - 1
       else st.active_workers) ∧
    (end_phase1 st id).threads = (release_my_waiters st id).threads := by
  unfold end_phase1
  dsimp only
  by_cases hR : (st.jobs id).state = JOB_RUNNING
  · rw [if_pos (show ((release_my_waiters st id).jobs id).state = JOB_RUNNING from hR),
      if_pos hR]
    refine ⟨by rw [updF_same], by rw [updF_same], ?_, rfl, rfl, rfl, rfl⟩
    intro i hij
    exact updF_other _ _ _ hij
  · rw [if_neg (show ¬((release_my_waiters st id).jobs id).state = JOB_RUNNING from hR),
      if_neg hR]
    refine ⟨by rw [updF_same], by rw [updF_same], ?_, rfl, rfl, rfl, rfl⟩
    intro i hij
    exact updF_other _ _ _ hij

/-- Behaviour of `job_queue_end_job` on a running slot. -/
theorem end_job_running_spec (cfg : queue_config) (st : queue_state) (id : Nat)
    (hR : (st.jobs id).state = JOB_RUNNING) :
    (job_queue_end_job cfg st id).1 = some ((st.jobs id).ctx) ∧
    (job_queue_end_job cfg st id).2.active_workers = st.active_workers - 1 ∧
    (job_queue_end_job cfg st id).2.registered_workers = st.registered_workers ∧
    ((job_queue_end_job cfg st id).2.jobs id).state = JOB_IDLE ∧
    ((job_queue_end_job cfg st id).2.jobs id).ctx = 0 := by
  rcases end_phase1_spec st id with ⟨e1, e2, _, e4, _, e6, _⟩
  unfold job_queue_end_job
  rw [if_neg (by simp [hR])]
  dsimp only
  rcases hreq : requeue_min cfg (end_phase1 st id) with _ | m
  · rw [e6, if_pos hR]
    exact ⟨rfl, rfl, e4, e1, e2⟩
  · rw [e6, if_pos hR] at *
    exact ⟨rfl, rfl, e4, e1, e2⟩

theorem natCmp_eq_neg_one {a b : Nat} : natCmp a b = -1 ↔ a < b := by
  unfold natCmp
  split_ifs with h1 h2
  · simp [h1]
  · simp
    omega
  · constructor
    · intro h
      exact absurd h (by simp)
    · intro h
      exact absurd h h1

theorem cexC2_reach : Reachable cexC2.1 true cexC2.2 cexC2_h := by
  refine Reachable.step (Reachable.step (Reachable.step (Reachable.step (Reachable.step
    (Reachable.step (Reachable.step (Reachable.step Reachable.init
      (Step.newWorker _ 0 0 _ (by rfl)))
      (Step.newWorker _ 0 1 _ (by rfl)))
      (Step.newWorker _ 0 2 _ (by rfl)))
      (Step.registerJob _ 2 42 (by decide) (by decide) (by decide)))
      (Step.startCall _ 0 7 (by decide) (by decide) (by decide)))
      (Step.startCall _ 1 8 (by decide) (by decide) (by decide)))
      (Step.endCall _ 2 (by decide) (by decide) (by decide)))
      (Step.resumeCap _ 1 8 (by decide))

theorem cexC1_reach : Reachable cexC1.1 true cexC1.2 cexC1_d := by
  refine Reachable.step (Reachable.step (Reachable.step (Reachable.step Reachable.init
      (Step.newWorker _ 0 0 _ (by rfl)))
      (Step.newWorker _ 0 1 _ (by rfl)))
      (Step.startCall _ 0 7 (by decide) (by decide) (by decide)))
      (Step.registerJob _ 1 9 (by decide) (by decide) (by decide))

theorem cexC3_reach : Reachable cexC3.1 true cexC3.2 cexC3_l := by
  refine Reachable.step (Reachable.step (Reachable.step (Reachable.step (Reachable.step
    (Reachable.step (Reachable.step (Reachable.step (Reachable.step (Reachable.step
    (Reachable.step (Reachable.step Reachable.init
      (Step.newWorker _ 0 0 _ (by rfl)))
      (Step.newWorker _ 0 1 _ (by rfl)))
      (Step.newWorker _ 0 2 _ (by rfl)))
      (Step.newWorker _ 0 3 _ (by rfl)))
      (Step.newWorker _ 0 4 _ (by rfl)))
      (Step.newWorker _ 0 5 _ (by rfl)))
      (Step.startCall _ 0 7 (by decide) (by decide) (by decide)))
      (Step.startCall _ 5 9 (by decide) (by decide) (by decide)))
      (Step.removeWorker _ 4 rfl (by decide) (by decide) (by decide)))
      (Step.removeWorker _ 3 rfl (by decide) (by decide) (by decide)))
      (Step.removeWorker _ 2 rfl (by decide) (by decide) (by decide)))
      (Step.removeWorker _ 1 rfl (by decide) (by decide) (by decide))

theorem cexC4_reach : Reachable cexC4.1 true cexC4.2 cexC4_h := by
  refine Reachable.step (Reachable.step (Reachable.step (Reachable.step (Reachable.step
    (Reachable.step (Reachable.step (Reachable.step Reachable.init
      (Step.newWorker _ 0 0 _ (by rfl)))
      (Step.newWorker _ 0 1 _ (by rfl)))
      (Step.newWorker _ 0 2 _ (by rfl)))
      (Step.startCall _ 2 11 (by decide) (by decide) (by decide)))
      (Step.registerJob _ 0 5 (by decide) (by decide) (by decide)))
      (Step.registerJob _ 1 3 (by decide) (by decide) (by decide)))
      (Step.startCall _ 0 5 (by decide) (by decide) (by decide)))
      (Step.startCall _ 1 3 (by decide) (by decide) (by decide))

theorem cexC5_reach : Reachable cexC5.1 true cexC5.2 cexC5_d := by
  refine Reachable.step (Reachable.step (Reachable.step (Reachable.step Reachable.init
      (Step.newWorker _ 0 0 _ (by rfl)))
      (Step.newWorker _ 0 1 _ (by rfl)))
      (Step.startCall _ 0 7 (by decide) (by decide) (by decide)))
      (Step.startCall _ 1 8 (by decide) (by decide) (by decide))

/-- C6: calling `end` on a slot whose state is neither `JOB_RUNNING` nor
`JOB_REGISTERED` returns `NULL` (`none`) and leaves the queue state — slot
states, ctxs, waiter bitmaps, the counters, and the thread continuations —
completely unchanged. -/
theorem C6_end_invalid_state_no_mutation (cfg : queue_config) (st : queue_state)
    (id : Nat)
    (h1 : (st.jobs id).state ≠ JOB_RUNNING)
    (h2 : (st.jobs id).state ≠ JOB_REGISTERED) :
    job_queue_end_job cfg st id = (none, st) := by
  unfold job_queue_end_job
  rw [if_pos ⟨h1, h2⟩]

/-- C6 witness: `end` on a freshly acquired idle slot of a concrete queue
fails with `none` and mutates nothing. -/
theorem C6_witness :
    ((cexC2_a.jobs 0).state ≠ JOB_RUNNING ∧ (cexC2_a.jobs 0).state ≠ JOB_REGISTERED) ∧
    job_queue_end_job cexC2.1 cexC2_a 0 = (none, cexC2_a) :=
  ⟨⟨by decide, by decide⟩,
   C6_end_invalid_state_no_mutation cexC2.1 cexC2_a 0 (by decide) (by decide)⟩

/-- C9: `start` on a slot that is already `JOB_RUNNING` returns success and
changes nothing, arbitrarily often; `register` on a running slot is likewise
a no-op success. -/
theorem C9_start_register_idempotent_on_running (cfg : queue_config)
    (st : queue_state) (id c : Nat)
    (hR : (st.jobs id).state = JOB_RUNNING) :
    job_queue_start_job cfg st id c = (WSDB_OK, st) ∧
    (∀ n, (fun s => (job_queue_start_job cfg s id c).2)^[n] st = st) ∧
    job_queue_register_job st id c = (WSDB_OK, st) := by
  refine ⟨?_, ?_, ?_⟩
  · unfold job_queue_start_job
    rw [if_pos hR]
  · intro n
    apply Function.iterate_fixed
    show (job_queue_start_job cfg st id c).2 = st
    unfold job_queue_start_job
    rw [if_pos hR]
  · unfold job_queue_register_job
    rw [if_pos hR]

/-- C9 witness: repeated `start` and a `register` on the concrete running
slot 0 are no-ops. -/
theorem C9_witness :
    (cexC2_e.jobs 0).state = JOB_RUNNING ∧
    (job_queue_start_job cexC2.1 cexC2_e 0 99 = (WSDB_OK, cexC2_e) ∧
     (∀ n, (fun s => (job_queue_start_job cexC2.1 s 0 99).2)^[n] cexC2_e = cexC2_e) ∧
     job_queue_register_job cexC2_e 0 99 = (WSDB_OK, cexC2_e)) :=
  ⟨by decide, C9_start_register_idempotent_on_running cexC2.1 cexC2_e 0 99 (by decide)⟩

/-- C10: `register` on a slot in any state other than `JOB_RUNNING` returns
success and unconditionally overwrites the stored ctx and sets
`JOB_REGISTERED`, leaving the counters, the waiter bitmaps, the thread
continuations and every other slot untouched — there is no idle-state
precondition. -/
theorem C10_register_overwrites (st : queue_state) (id c : Nat)
    (h : (st.jobs id).state ≠ JOB_RUNNING) :
    (job_queue_register_job st id c).1 = WSDB_OK ∧
    ((job_queue_register_job st id c).2.jobs id).state = JOB_REGISTERED ∧
    ((job_queue_register_job st id c).2.jobs id).ctx = c ∧
    ((job_queue_register_job st id c).2.jobs id).typ = (st.jobs id).typ ∧
    (∀ i, i ≠ id → (job_queue_register_job st id c).2.jobs i = st.jobs i) ∧
    (job_queue_register_job st id c).2.registered_workers = st.registered_workers ∧
    (job_queue_register_job st id c).2.active_workers = st.active_workers ∧
    (job_queue_register_job st id c).2.waiters = st.waiters ∧
    (job_queue_register_job st id c).2.threads = st.threads := by
  unfold job_queue_register_job
  rw [if_neg h]
  refine ⟨rfl, by dsimp only; rw [updF_same], by dsimp only; rw [updF_same],
    by dsimp only; rw [updF_same], ?_, rfl, rfl, rfl, rfl⟩
  intro i hij
  exact updF_other _ _ _ hij

/-- C10 witness: `register` with ctx 13 on the concrete slot 1, currently
parked `JOB_WAIT_QUEUE_ENTER` (not idle), still overwrites and succeeds. -/
theorem C10_witness :
    (cexC2_f.jobs 1).state ≠ JOB_RUNNING ∧
    ((job_queue_register_job cexC2_f 1 13).1 = WSDB_OK ∧
     ((job_queue_register_job cexC2_f 1 13).2.jobs 1).state = JOB_REGISTERED ∧
     ((job_queue_register_job cexC2_f 1 13).2.jobs 1).ctx = 13 ∧
     ((job_queue_register_job cexC2_f 1 13).2.jobs 1).typ = (cexC2_f.jobs 1).typ ∧
     (∀ i, i ≠ 1 → (job_queue_register_job cexC2_f 1 13).2.jobs i = cexC2_f.jobs i) ∧
     (job_queue_register_job cexC2_f 1 13).2.registered_workers =
       cexC2_f.registered_workers ∧
     (job_queue_register_job cexC2_f 1 13).2.active_workers = cexC2_f.active_workers ∧
     (job_queue_register_job cexC2_f 1 13).2.waiters = cexC2_f.waiters ∧
     (job_queue_register_job cexC2_f 1 13).2.threads = cexC2_f.threads) :=
  ⟨by decide, C10_register_overwrites cexC2_f 1 13 (by decide)⟩

/-- C8: `job_queue_new_worker` fails with `queueFull` exactly when
`registered_workers = MAX_WORKERS`; under the counting invariant
(`registered` = number of non-void slots) the defensive `noFreeSlot` branch
is unreachable, and otherwise the lowest-indexed void slot is selected, set
idle with the requested kind, and `registered_workers` is incremented. -/
theorem C8_new_worker_spec (cfg : queue_config) (st : queue_state) (ty : Nat) :
    (job_queue_new_worker cfg st ty = NewWorkerRes.queueFull ↔
      st.registered_workers = cfg.MAX_WORKERS) ∧
    (st.registered_workers = countB cfg.MAX_WORKERS (nonVoidB st) →
      job_queue_new_worker cfg st ty ≠ NewWorkerRes.noFreeSlot ∧
      (st.registered_workers ≠ cfg.MAX_WORKERS →
        ∃ id st', job_queue_new_worker cfg st ty = NewWorkerRes.ok id st' ∧
          (st.jobs id).state = JOB_VOID ∧
          (∀ j, j < id → (st.jobs j).state ≠ JOB_VOID) ∧
          (st'.jobs id).state = JOB_IDLE ∧ (st'.jobs id).typ = ty ∧
          st'.registered_workers = st.registered_workers + 1 ∧
          (∀ j, j ≠ id → st'.jobs j = st.jobs j))) := by
  constructor
  · constructor
    · intro h
      by_contra hne
      unfold job_queue_new_worker at h
      rw [if_neg hne] at h
      rcases hf : findFirst (fun i => (st.jobs i).state == JOB_VOID)
          (List.range cfg.MAX_WORKERS) with _ | i
      · rw [hf] at h
        exact absurd h (by simp)
      · rw [hf] at h
        exact absurd h (by simp)
    · intro h
      unfold job_queue_new_worker
      rw [if_pos h]
  · intro hcnt
    have hvoid_found : st.registered_workers ≠ cfg.MAX_WORKERS →
        ∃ i, findFirst (fun i => (st.jobs i).state == JOB_VOID)
          (List.range cfg.MAX_WORKERS) = some i := by
      intro hne
      rcases hf : findFirst (fun i => (st.jobs i).state == JOB_VOID)
          (List.range cfg.MAX_WORKERS) with _ | i
      · exfalso
        have hall := findFirst_range_none.1 hf
        have hcount : countB cfg.MAX_WORKERS (nonVoidB st) = cfg.MAX_WORKERS := by
          apply countB_eq_n
          intro i hi
          have := hall i hi
          simp only [beq_eq_false_iff_ne, ne_eq] at this
          simp [nonVoidB, this]
        have hle := countB_le cfg.MAX_WORKERS (nonVoidB st)
        omega
      · exact ⟨i, rfl⟩
    constructor
    · intro hbad
      unfold job_queue_new_worker at hbad
      by_cases hne : st.registered_workers = cfg.MAX_WORKERS
      · rw [if_pos hne] at hbad
        exact absurd hbad (by simp)
      · rw [if_neg hne] at hbad
        rcases hvoid_found hne with ⟨i, hf⟩
        rw [hf] at hbad
        exact absurd hbad (by simp)
    · intro hne
      rcases hvoid_found hne with ⟨i, hf⟩
      have hres : job_queue_new_worker cfg st ty = NewWorkerRes.ok i
          { st with
            registered_workers := st.registered_workers + 1
            jobs := updF st.jobs i { st.jobs i with state := JOB_IDLE, typ := ty } } := by
        unfold job_queue_new_worker
        rw [if_neg hne, hf]
      rcases findFirst_range_some hf with ⟨hi, hpred, hfirst⟩
      simp only [beq_iff_eq] at hpred
      refine ⟨i, _, hres, hpred, ?_, ?_, ?_, rfl, ?_⟩
      · intro j hj hvj
        have := hfirst j hj
        rw [hvj] at this
        simp at this
      · simp only []
        rw [updF_same]
      · simp only []
        rw [updF_same]
      · intro j hj
        simp only []
        rw [updF_other _ _ _ hj]

/-- C8 witness: on a concrete queue with one registered worker of three
slots, acquisition takes slot 1 (the lowest void index) and never hits the
defensive branch. -/
theorem C8_witness :
    cexC2_a.registered_workers = countB cexC2.1.MAX_WORKERS (nonVoidB cexC2_a) ∧
    (job_queue_new_worker cexC2.1 cexC2_a 0 ≠ NewWorkerRes.noFreeSlot ∧
      (cexC2_a.registered_workers ≠ cexC2.1.MAX_WORKERS →
        ∃ id st', job_queue_new_worker cexC2.1 cexC2_a 0 = NewWorkerRes.ok id st' ∧
          (cexC2_a.jobs id).state = JOB_VOID ∧
          (∀ j, j < id → (cexC2_a.jobs j).state ≠ JOB_VOID) ∧
          (st'.jobs id).state = JOB_IDLE ∧ (st'.jobs id).typ = 0 ∧
          st'.registered_workers = cexC2_a.registered_workers + 1 ∧
          (∀ j, j ≠ id → st'.jobs j = cexC2_a.jobs j))) :=
  ⟨by decide, (C8_new_worker_spec cexC2.1 cexC2_a 0).2 (by decide)⟩

/-- C3 counterexample: in a reachable state slot 0 is running with slot 5
recorded in its waiter set, but `registered_workers` has dropped to 2, so
`job_queue_end_job` on slot 0 scans only ids 0 and 1 and leaves slot 5
parked and unsignalled (its woken flag stays `false`), contradicting the
claim that every recorded waiter is signalled regardless of its id. -/
theorem C3_counterexample :
    Reachable cexC3.1 true cexC3.2 cexC3_l ∧
    (cexC3_l.jobs 0).state = JOB_RUNNING ∧
    cexC3_l.waiters 0 5 = true ∧
    cexC3_l.registered_workers = 2 ∧
    cexC3_l.threads 5 = ThreadSt.parkedConf 9 0 false ∧
    (job_queue_end_job cexC3.1 cexC3_l 0).1 = some 7 ∧
    (job_queue_end_job cexC3.1 cexC3_l 0).2.threads 5 = ThreadSt.parkedConf 9 0 false :=
  ⟨cexC3_reach, by decide, by decide, by decide, by decide, by decide, by decide⟩

/-- C3 amended: the waiter-release loop of `release_my_waiters` is bounded
by `registered_workers`: both `job_queue_end_job` on a running or registered
slot and `job_queue_remove_worker` on a registered slot wake exactly the
recorded waiters whose id is below `registered_workers`, and leave the
thread of every slot at or beyond that bound untouched. -/
theorem C3_amended_release_bounded_waiters (cfg : queue_config)
    (st : queue_state) (id : Nat) :
    ((st.jobs id).state = JOB_RUNNING ∨ (st.jobs id).state = JOB_REGISTERED →
      (∀ i, i < st.registered_workers → st.waiters id i = true →
        (job_queue_end_job cfg st id).2.threads i = wakeThread (st.threads i)) ∧
      (∀ i, st.registered_workers ≤ i →
        (job_queue_end_job cfg st id).2.threads i = st.threads i)) ∧
    ((st.jobs id).state = JOB_REGISTERED →
      (∀ i, i < st.registered_workers → st.waiters id i = true →
        (job_queue_remove_worker st id).threads i = wakeThread (st.threads i)) ∧
      (∀ i, st.registered_workers ≤ i →
        (job_queue_remove_worker st id).threads i = st.threads i)) := by
  constructor
  · intro hv
    rcases end_phase1_spec st id with ⟨_, _, _, e4, _, _, e7⟩
    unfold job_queue_end_job
    rw [if_neg (by rcases hv with h | h <;> simp [h])]
    dsimp only
    rcases hreq : requeue_min cfg (end_phase1 st id) with _ | m
    · constructor
      · intro i hlt hw
        rw [e7]
        show (if i < st.registered_workers && st.waiters id i then
            wakeThread (st.threads i) else st.threads i) = wakeThread (st.threads i)
        rw [hw]
        simp [hlt]
      · intro i hge
        rw [e7]
        show (if i < st.registered_workers && st.waiters id i then
            wakeThread (st.threads i) else st.threads i) = st.threads i
        simp [show ¬i < st.registered_workers from by omega]
    · have hm : m < st.registered_workers := by
        have hreq' : requeue_min_loop cfg (end_phase1 st id) ctx_field_addr
            (List.range (end_phase1 st id).registered_workers) none = some m := hreq
        rcases requeue_min_loop_mem hreq' with ⟨_, hmem⟩ | hbad
        · have := List.mem_range.1 hmem
          omega
        · exact absurd hbad (by simp)
      constructor
      · intro i hlt hw
        dsimp only
        by_cases him : i = m
        · subst him
          rw [updF_same, e7]
          show wakeThread (if i < st.registered_workers && st.waiters id i then
              wakeThread (st.threads i) else st.threads i) = wakeThread (st.threads i)
          rw [hw]
          simp [hlt, wakeThread_idem]
        · rw [updF_other _ _ _ him, e7]
          show (if i < st.registered_workers && st.waiters id i then
              wakeThread (st.threads i) else st.threads i) = wakeThread (st.threads i)
          rw [hw]
          simp [hlt]
      · intro i hge
        dsimp only
        rw [updF_other _ _ _ (by omega : i ≠ m), e7]
        show (if i < st.registered_workers && st.waiters id i then
            wakeThread (st.threads i) else st.threads i) = st.threads i
        simp [show ¬i < st.registered_workers from by omega]
  · intro hreg
    unfold job_queue_remove_worker
    dsimp only
    rw [if_pos hreg]
    constructor
    · intro i hlt hw
      show (if i < st.registered_workers && st.waiters id i then
          wakeThread (st.threads i) else st.threads i) = wakeThread (st.threads i)
      rw [hw]
      simp [hlt]
    · intro i hge
      show (if i < st.registered_workers && st.waiters id i then
          wakeThread (st.threads i) else st.threads i) = st.threads i
      simp [show ¬i < st.registered_workers from by omega]

/-- C3 amended witness: ending running slot 0 of the `cexC5` queue wakes its
recorded conflict-parked waiter 1 (below the bound), and removing the
registered slot 0 of the `cexC3r` queue likewise wakes its recorded waiter 1;
threads at or beyond `registered_workers` are untouched in both cases. -/
theorem C3_amended_witness :
    (cexC5_d.waiters 0 1 = true ∧
     cexC5_d.threads 1 = ThreadSt.parkedConf 8 0 false ∧
     (job_queue_end_job cexC5.1 cexC5_d 0).2.threads 1 = ThreadSt.parkedConf 8 0 true ∧
     ((cexC5_d.jobs 0).state = JOB_RUNNING ∨ (cexC5_d.jobs 0).state = JOB_REGISTERED) ∧
     ((∀ i, i < cexC5_d.registered_workers → cexC5_d.waiters 0 i = true →
        (job_queue_end_job cexC5.1 cexC5_d 0).2.threads i = wakeThread (cexC5_d.threads i)) ∧
      (∀ i, cexC5_d.registered_workers ≤ i →
        (job_queue_end_job cexC5.1 cexC5_d 0).2.threads i = cexC5_d.threads i))) ∧
    (cexC3r_b.waiters 0 1 = true ∧
     cexC3r_b.threads 1 = ThreadSt.parkedConf 8 0 false ∧
     (job_queue_remove_worker cexC3r_b 0).threads 1 = ThreadSt.parkedConf 8 0 true ∧
     (cexC3r_b.jobs 0).state = JOB_REGISTERED ∧
     ((∀ i, i < cexC3r_b.registered_workers → cexC3r_b.waiters 0 i = true →
        (job_queue_remove_worker cexC3r_b 0).threads i = wakeThread (cexC3r_b.threads i)) ∧
      (∀ i, cexC3r_b.registered_workers ≤ i →
        (job_queue_remove_worker cexC3r_b 0).threads i = cexC3r_b.threads i))) :=
  ⟨⟨by decide, by decide, by decide, by decide,
    (C3_amended_release_bounded_waiters cexC5.1 cexC5_d 0).1 (by decide)⟩,
   ⟨by decide, by decide, by decide, by decide,
    (C3_amended_release_bounded_waiters cexC5.1 cexC3r_b 0).2 (by decide)⟩⟩

/-- C2: a reachable execution in which `end` on a merely-registered slot
signals a capacity waiter without freeing a seat, so the woken starter
pushes `active_workers` to 2 while `max_concurrent_workers` is 1 — the code
violates the admission bound the spec states. -/
theorem C2_admission_bound_overshoot :
    Reachable cexC2.1 true cexC2.2 cexC2_h ∧
    cexC2.1.max_concurrent_workers = 1 ∧
    cexC2_h.active_workers = 2 ∧
    (cexC2_h.jobs 0).state = JOB_RUNNING ∧
    (cexC2_h.jobs 1).state = JOB_RUNNING :=
  ⟨cexC2_reach, by decide, by decide, by decide, by decide⟩

/-- C5 counterexample: a reachable quiescent state with `active_workers = 2`
but only one slot in `JOB_RUNNING` (the other passed the admission gate and
is parked in `JOB_WAIT_FOR_JOB`), refuting `active = #Running`; the
`registered = #non-Void` half does hold there. -/
theorem C5_counterexample :
    Reachable cexC5.1 true cexC5.2 cexC5_d ∧
    cexC5_d.active_workers = 2 ∧
    countB cexC5.1.MAX_WORKERS (runningB cexC5_d) = 1 ∧
    (cexC5_d.jobs 1).state = JOB_WAIT_FOR_JOB ∧
    cexC5_d.registered_workers = countB cexC5.1.MAX_WORKERS (nonVoidB cexC5_d) :=
  ⟨cexC5_reach, by decide, by decide, by decide, by decide⟩

/-- C5 amended: in every reachable state of a created queue,
`registered_workers` equals the number of non-void slots, and
`active_workers` equals the number of `JOB_RUNNING` slots plus the number of
`JOB_WAIT_FOR_JOB` slots (conflict-parked slots hold an admission seat). -/
theorem C5_amended_counter_state (MW mw : Nat) (ct : Nat → Nat → Bool)
    (cmp : Nat → Nat → Int) (ar : Bool) (st : queue_state)
    (h : Reachable (job_queue_create MW mw ct cmp).1 ar
      (job_queue_create MW mw ct cmp).2 st) :
    st.registered_workers = countB MW (nonVoidB st) ∧
    st.active_workers = countB MW (runningB st) + countB MW (waitJobB st) := by
  have hI := invBase_reachable (invBase_create MW mw ct cmp) h
  exact ⟨hI.counts, hI.active_eq⟩

/-- C5 amended witness: the amended counter identities evaluated on the
concrete reachable state `cexC5_d` (`active = 2 = 1 running + 1 parked`). -/
theorem C5_amended_witness :
    cexC5_d.registered_workers = countB 2 (nonVoidB cexC5_d) ∧
    cexC5_d.active_workers = countB 2 (runningB cexC5_d) + countB 2 (waitJobB cexC5_d) :=
  C5_amended_counter_state 2 2 (fun a b => a == 8 && b == 7) natCmp true cexC5_d
    cexC5_reach

/-- C4 counterexample: a reachable state with two capacity waiters whose
stored ctx values order slot 1 first (`order_of(3,5) = -1`), yet
`job_queue_end_job` signals slot 0, because the comparator receives the
addresses `&jobs[i].ctx` (monotone in the slot index), not the ctx values:
the claim that the comparator is applied to the stored ctx values is false. -/
theorem C4_counterexample :
    Reachable cexC4.1 true cexC4.2 cexC4_h ∧
    (cexC4_h.jobs 0).state = JOB_WAIT_QUEUE_ENTER ∧
    (cexC4_h.jobs 1).state = JOB_WAIT_QUEUE_ENTER ∧
    (cexC4_h.jobs 0).ctx = 5 ∧
    (cexC4_h.jobs 1).ctx = 3 ∧
    cexC4.1.job_cmp_order (cexC4_h.jobs 1).ctx (cexC4_h.jobs 0).ctx = -1 ∧
    requeue_min_by_ctx cexC4.1 (end_phase1 cexC4_h 2) = some 1 ∧
    requeue_min cexC4.1 (end_phase1 cexC4_h 2) = some 0 ∧
    (job_queue_end_job cexC4.1 cexC4_h 2).2.threads 0 = ThreadSt.parkedCap 5 true ∧
    (job_queue_end_job cexC4.1 cexC4_h 2).2.threads 1 = ThreadSt.parkedCap 3 false :=
  ⟨cexC4_reach, by decide, by decide, by decide, by decide, by decide, by decide,
   by decide, by decide, by decide⟩

/-- C4 amended: on `end` of a running or registered slot, if no slot below
`registered_workers` is `JOB_WAIT_QUEUE_ENTER` no requeue signal is sent;
otherwise exactly one waiting slot `m` is signalled, minimal (for a
transitive, irreflexive comparator) under `job_cmp_order` applied to the
*addresses* of the candidates' stored ctx fields, ties keeping the earlier
incumbent. -/
theorem C4_amended_requeue_selection (cfg : queue_config) (st : queue_state)
    (id : Nat)
    (hv : (st.jobs id).state = JOB_RUNNING ∨ (st.jobs id).state = JOB_REGISTERED)
    (htrans : ∀ x y z, cfg.job_cmp_order x y = -1 → cfg.job_cmp_order y z = -1 →
      cfg.job_cmp_order x z = -1)
    (hirr : ∀ x, cfg.job_cmp_order x x ≠ -1) :
    (requeue_min cfg (end_phase1 st id) = none ↔
      ∀ i, i < st.registered_workers → (st.jobs i).state ≠ JOB_WAIT_QUEUE_ENTER) ∧
    (∀ m, requeue_min cfg (end_phase1 st id) = some m →
      m < st.registered_workers ∧ (st.jobs m).state = JOB_WAIT_QUEUE_ENTER ∧
      (∀ j, j < st.registered_workers → (st.jobs j).state = JOB_WAIT_QUEUE_ENTER →
        cfg.job_cmp_order (ctx_field_addr j) (ctx_field_addr m) ≠ -1) ∧
      (job_queue_end_job cfg st id).2.threads m =
        wakeThread ((end_phase1 st id).threads m) ∧
      (∀ i, i ≠ m →
        (job_queue_end_job cfg st id).2.threads i = (end_phase1 st id).threads i)) ∧
    (requeue_min cfg (end_phase1 st id) = none →
      (job_queue_end_job cfg st id).2.threads = (end_phase1 st id).threads) := by
  rcases end_phase1_spec st id with ⟨e1, _, e3, e4, _, _, _⟩
  have hidstate : ((end_phase1 st id).jobs id).state ≠ JOB_WAIT_QUEUE_ENTER := by
    rw [e1]
    simp
  have hstates : ∀ i, (((end_phase1 st id).jobs i).state = JOB_WAIT_QUEUE_ENTER ↔
      (st.jobs i).state = JOB_WAIT_QUEUE_ENTER) := by
    intro i
    by_cases hij : i = id
    · subst hij
      rw [e1]
      constructor
      · intro hcon
        exact absurd hcon (by simp)
      · intro hcon
        rcases hv with h | h <;> rw [h] at hcon <;> exact absurd hcon (by simp)
    · rw [e3 i hij]
  refine ⟨?_, ?_, ?_⟩
  · show requeue_min_loop cfg (end_phase1 st id) ctx_field_addr
      (List.range (end_phase1 st id).registered_workers) none = none ↔ _
    rw [requeue_min_loop_eq_none]
    constructor
    · intro h i hi hcon
      exact h i (by rw [e4]; exact List.mem_range.2 hi) ((hstates i).2 hcon)
    · intro h i hi hcon
      have hlt := List.mem_range.1 hi
      rw [e4] at hlt
      exact h i hlt ((hstates i).1 hcon)
  · intro m hreq
    have hreq' : requeue_min_loop cfg (end_phase1 st id) ctx_field_addr
        (List.range (end_phase1 st id).registered_workers) none = some m := hreq
    have hmem := requeue_min_loop_mem hreq'
    rcases hmem with ⟨hwqe, hmem⟩ | hbad
    · have hmlt : m < st.registered_workers := by
        have := List.mem_range.1 hmem
        omega
      have hmin := requeue_min_loop_min htrans hirr hreq'
      refine ⟨hmlt, (hstates m).1 hwqe, ?_, ?_, ?_⟩
      · intro j hj hwj
        exact hmin j (by rw [e4]; exact List.mem_range.2 hj) ((hstates j).2 hwj)
      · unfold job_queue_end_job
        rw [if_neg (by rcases hv with h | h <;> simp [h])]
        dsimp only
        rw [hreq]
        dsimp only
        rw [updF_same]
      · intro i him
        unfold job_queue_end_job
        rw [if_neg (by rcases hv with h | h <;> simp [h])]
        dsimp only
        rw [hreq]
        dsimp only
        rw [updF_other _ _ _ him]
    · exact absurd hbad (by simp)
  · intro hreq
    unfold job_queue_end_job
    rw [if_neg (by rcases hv with h | h <;> simp [h])]
    dsimp only
    rw [hreq]

/-- C4 amended witness: the amended selection evaluated on the concrete
queue — slot 0 (least ctx-field address) is signalled among the two waiting
slots, and the numeric comparator on addresses is transitive and
irreflexive. -/
theorem C4_amended_witness :
    ((cexC4_h.jobs 2).state = JOB_RUNNING ∨ (cexC4_h.jobs 2).state = JOB_REGISTERED) ∧
    (∀ m, requeue_min cexC4.1 (end_phase1 cexC4_h 2) = some m →
      m < cexC4_h.registered_workers ∧
      (cexC4_h.jobs m).state = JOB_WAIT_QUEUE_ENTER ∧
      (∀ j, j < cexC4_h.registered_workers →
        (cexC4_h.jobs j).state = JOB_WAIT_QUEUE_ENTER →
        cexC4.1.job_cmp_order (ctx_field_addr j) (ctx_field_addr m) ≠ -1) ∧
      (job_queue_end_job cexC4.1 cexC4_h 2).2.threads m =
        wakeThread ((end_phase1 cexC4_h 2).threads m) ∧
      (∀ i, i ≠ m →
        (job_queue_end_job cexC4.1 cexC4_h 2).2.threads i =
          (end_phase1 cexC4_h 2).threads i)) :=
  ⟨by decide,
   (C4_amended_requeue_selection cexC4.1 cexC4_h 2 (by decide)
     (fun x y z hxy hyz => by
       have h1 : natCmp x y = -1 := hxy
       have h2 : natCmp y z = -1 := hyz
       show natCmp x z = -1
       rw [natCmp_eq_neg_one] at h1 h2 ⊢
       omega)
     (fun x => by
       intro hcon
       have h1 : natCmp x x = -1 := hcon
       rw [natCmp_eq_neg_one] at h1
       omega)).2.1⟩

/-- Fast path of `job_queue_start_job`: free seat and clean conflict scan. -/
theorem start_job_complete_spec (cfg : queue_config) (st : queue_state) (id c : Nat)
    (hnr : (st.jobs id).state ≠ JOB_RUNNING)
    (hseat : st.active_workers ≠ cfg.max_concurrent_workers)
    (hscan : scanFind cfg
      { st with
        active_workers := st.active_workers + 1
        jobs := updF st.jobs id { st.jobs id with ctx := c } } id c 0 = none) :
    ((job_queue_start_job cfg st id c).2.jobs id).state = JOB_RUNNING ∧
    ((job_queue_start_job cfg st id c).2.jobs id).ctx = c ∧
    (job_queue_start_job cfg st id c).2.active_workers = st.active_workers + 1 ∧
    (job_queue_start_job cfg st id c).2.registered_workers = st.registered_workers := by
  unfold job_queue_start_job
  rw [if_neg hnr, if_neg hseat]
  dsimp only
  unfold start_engage start_scan_step
  rw [hscan]
  dsimp only
  refine ⟨?_, ?_, rfl, rfl⟩
  · simp [updF]
  · simp [updF]

/-- C7: `start` on an idle slot with a free concurrency seat and no
conflicting live slot runs immediately; the `end` that follows returns the
very ctx passed to `start`, restores `active_workers`, re-idles the slot and
clears its stored ctx. -/
theorem C7_round_trip (cfg : queue_config) (st : queue_state) (id c : Nat)
    (hidle : (st.jobs id).state = JOB_IDLE)
    (hseat : st.active_workers ≠ cfg.max_concurrent_workers)
    (hnoconf : ∀ i, i < st.registered_workers → i ≠ id →
      isLiveState (st.jobs i).state = true →
      cfg.conflict_test c ((st.jobs i).ctx) = false) :
    ((job_queue_start_job cfg st id c).2.jobs id).state = JOB_RUNNING ∧
    (job_queue_start_job cfg st id c).2.active_workers = st.active_workers + 1 ∧
    (job_queue_end_job cfg (job_queue_start_job cfg st id c).2 id).1 = some c ∧
    (job_queue_end_job cfg (job_queue_start_job cfg st id c).2 id).2.active_workers =
      st.active_workers ∧
    ((job_queue_end_job cfg (job_queue_start_job cfg st id c).2 id).2.jobs id).state =
      JOB_IDLE ∧
    ((job_queue_end_job cfg (job_queue_start_job cfg st id c).2 id).2.jobs id).ctx =
      0 := by
  have hscan : scanFind cfg
      { st with
        active_workers := st.active_workers + 1
        jobs := updF st.jobs id { st.jobs id with ctx := c } } id c 0 = none := by
    apply scanFind_eq_none.2
    intro i _ h2 h3 h4
    dsimp only at h2 h4 ⊢
    rw [updF_other _ _ _ h3] at h4 ⊢
    exact hnoconf i h2 h3 h4
  rcases start_job_complete_spec cfg st id c (by rw [hidle]; simp) hseat hscan with
    ⟨f1, f2, f3, f4⟩
  rcases end_job_running_spec cfg (job_queue_start_job cfg st id c).2 id f1 with
    ⟨g1, g2, g3, g4, g5⟩
  refine ⟨f1, f3, ?_, ?_, g4, g5⟩
  · rw [g1, f2]
  · rw [g2, f3]
    omega

/-- C7 witness: the round trip evaluated on a concrete idle slot 1 of a
queue with a free seat and no conflicts. -/
theorem C7_witness :
    ((cexC1_c.jobs 1).state = JOB_IDLE ∧
     cexC1_c.active_workers ≠ cexC1.1.max_concurrent_workers) ∧
    (((job_queue_start_job cexC1.1 cexC1_c 1 3).2.jobs 1).state = JOB_RUNNING ∧
     (job_queue_start_job cexC1.1 cexC1_c 1 3).2.active_workers =
       cexC1_c.active_workers + 1 ∧
     (job_queue_end_job cexC1.1 (job_queue_start_job cexC1.1 cexC1_c 1 3).2 1).1 =
       some 3 ∧
     (job_queue_end_job cexC1.1
         (job_queue_start_job cexC1.1 cexC1_c 1 3).2 1).2.active_workers =
       cexC1_c.active_workers ∧
     ((job_queue_end_job cexC1.1
         (job_queue_start_job cexC1.1 cexC1_c 1 3).2 1).2.jobs 1).state = JOB_IDLE ∧
     ((job_queue_end_job cexC1.1
         (job_queue_start_job cexC1.1 cexC1_c 1 3).2 1).2.jobs 1).ctx = 0) :=
  ⟨⟨by decide, by decide⟩,
   C7_round_trip cexC1.1 cexC1_c 1 3 (by decide) (by decide) (by decide)⟩

/-- C1 counterexample: a reachable state in which slot 0 is `JOB_RUNNING`
and slot 1 is `JOB_REGISTERED` with a non-null stored ctx that conflicts
with slot 0's — `job_queue_register_job` performs no conflict check, so two
conflicting slots are simultaneously live (one running, one pending
admission with a registered ctx), refuting the claim as stated. -/
theorem C1_counterexample :
    Reachable cexC1.1 true cexC1.2 cexC1_d ∧
    (cexC1_d.jobs 0).state = JOB_RUNNING ∧
    (cexC1_d.jobs 1).state = JOB_REGISTERED ∧
    (cexC1_d.jobs 1).ctx ≠ 0 ∧
    cexC1.1.conflict_test ((cexC1_d.jobs 0).ctx) ((cexC1_d.jobs 1).ctx) = true :=
  ⟨cexC1_reach, by decide, by decide, by decide, by decide⟩

/-- A conflict-parked slot records state `JOB_WAIT_FOR_JOB` and its ctx. -/
theorem parkedConf_facts {cfg : queue_config} {st : queue_state} {i ci pi wi}
    (hb : InvBase cfg st) (h : st.threads i = ThreadSt.parkedConf ci pi wi) :
    (st.jobs i).state = JOB_WAIT_FOR_JOB ∧ (st.jobs i).ctx = ci := by
  have hts := hb.ts i
  unfold threadStateOk at hts
  rw [h] at hts
  exact ⟨hts.1, hts.2.1⟩

theorem armed_lt_reg {cfg : queue_config} {st : queue_state} {j : Nat}
    (hInv : InvNR cfg st) (h : armed st j) : j < st.registered_workers := by
  rcases h with h | h <;>
    exact (hInv.pfx j).1 (by rw [h]; simp)

theorem armed_live {st : queue_state} {j : Nat} (h : armed st j) :
    isLiveState ((st.jobs j).state) = true := by
  rcases h with h | h <;> rw [h] <;> rfl

theorem parked_lt_reg {cfg : queue_config} {st : queue_state} {i ci pi wi}
    (hInv : InvNR cfg st) (h : st.threads i = ThreadSt.parkedConf ci pi wi) :
    i < st.registered_workers := by
  have := (parkedConf_facts hInv.base h).1
  exact (hInv.pfx i).1 (by rw [this]; simp)

theorem wake_eq_parkedConf {th : ThreadSt} {c p : Nat} {w : Bool}
    (h : wakeThread th = ThreadSt.parkedConf c p w) :
    ∃ w', th = ThreadSt.parkedConf c p w' := by
  rcases th with _ | ⟨c', w'⟩ | ⟨c', p', w'⟩
  · exact absurd h (by simp [wakeThread])
  · exact absurd h (by simp [wakeThread])
  · simp [wakeThread] at h
    exact ⟨w', by rw [h.1, h.2.1]⟩

theorem armed_of_eq {st st' : queue_state} {j : Nat}
    (hj : st'.jobs j = st.jobs j) (h : armed st' j) : armed st j := by
  unfold armed at h ⊢
  rw [hj] at h
  exact h

theorem invNR_newWorker {cfg : queue_config} {st : queue_state}
    {ty id : Nat} {st' : queue_state}
    (hInv : InvNR cfg st)
    (h : job_queue_new_worker cfg st ty = NewWorkerRes.ok id st') :
    InvNR cfg st' := by
  have hbase' := invBase_newWorker hInv.base h
  rcases job_queue_new_worker_ok h with ⟨hfull, hid, hvoid, hfirst, rfl⟩
  have hidreg : id = st.registered_workers := by
    have h1 : ¬id < st.registered_workers := fun hlt => ((hInv.pfx id).2 hlt) hvoid
    have h2 : ¬st.registered_workers < id := by
      intro hlt
      have hne := hfirst st.registered_workers hlt
      have := (hInv.pfx st.registered_workers).1 hne
      omega
    omega
  constructor
  · exact hbase'
  · intro i
    dsimp only
    by_cases hij : i = id
    · subst hij
      rw [updF_same]
      simp
      omega
    · rw [updF_other _ _ _ hij]
      rw [hInv.pfx i]
      omega
  · intro i ci pi wi hp
    dsimp only at hp ⊢
    have := hInv.pos_lt i ci pi wi hp
    omega
  · intro i j ci pi wi hij hp harm hc
    dsimp only at hp hc ⊢
    have hia : i ≠ id := by
      intro hcon
      subst hcon
      have hts := hInv.base.ts i
      unfold threadStateOk at hts
      rw [hp] at hts
      rw [hts.1] at hvoid
      exact absurd hvoid (by simp)
    by_cases hja : j = id
    · subst hja
      exfalso
      rcases harm with ha | ha <;> simp [updF] at ha
    · have harm' : armed st j :=
        armed_of_eq (by dsimp only; exact updF_other _ _ _ hja) harm
      rw [updF_other _ _ _ hja] at hc
      exact hInv.i6 i j ci pi wi hij hp harm' hc
  · intro i j hij hc
    dsimp only at hc ⊢
    intro ⟨hri, hrj⟩
    by_cases hia : i = id
    · subst hia
      simp [updF] at hri
    · by_cases hja : j = id
      · subst hja
        simp [updF] at hrj
      · rw [updF_other _ _ _ hia] at hri hc
        rw [updF_other _ _ _ hja] at hrj hc
        exact hInv.mutex i j hij hc ⟨hri, hrj⟩

theorem invNR_register {cfg : queue_config} {st : queue_state} {id c : Nat}
    (hInv : InvNR cfg st)
    (hid : id < cfg.MAX_WORKERS)
    (hv : (st.jobs id).state ≠ JOB_VOID)
    (hth : st.threads id = ThreadSt.done) :
    InvNR cfg (job_queue_register_job st id c).2 := by
  have hbase' := invBase_register (c := c) hInv.base hid hv hth
  by_cases hrun : (st.jobs id).state = JOB_RUNNING
  · have hsame : (job_queue_register_job st id c).2 = st := by
      unfold job_queue_register_job
      rw [if_pos hrun]
    rw [hsame]
    exact hInv
  · have hres : (job_queue_register_job st id c).2 =
      { st with jobs := updF st.jobs id { st.jobs id with state := JOB_REGISTERED, ctx := c } } := by
      unfold job_queue_register_job
      rw [if_neg hrun]
    rw [hres] at hbase'
    rw [hres]
    constructor
    · exact hbase'
    · intro i
      dsimp only
      by_cases hij : i = id
      · subst hij
        rw [updF_same]
        simp only []
        rw [← hInv.pfx i]
        constructor
        · intro _
          exact hv
        · intro _
          simp
      · rw [updF_other _ _ _ hij]
        exact hInv.pfx i
    · intro i ci pi wi hp
      exact hInv.pos_lt i ci pi wi hp
    · intro i j ci pi wi hij hp harm hc
      dsimp only at hp hc ⊢
      have hia : i ≠ id := by
        intro hcon
        subst hcon
        rw [hth] at hp
        exact absurd hp (by simp)
      by_cases hja : j = id
      · subst hja
        exfalso
        rcases harm with ha | ha <;> simp [updF] at ha
      · have harm' : armed st j :=
          armed_of_eq (by dsimp only; exact updF_other _ _ _ hja) harm
        rw [updF_other _ _ _ hja] at hc
        exact hInv.i6 i j ci pi wi hij hp harm' hc
    · intro i j hij hc
      dsimp only at hc ⊢
      intro ⟨hri, hrj⟩
      by_cases hia : i = id
      · subst hia
        simp [updF] at hri
      · by_cases hja : j = id
        · subst hja
          simp [updF] at hrj
        · rw [updF_other _ _ _ hia] at hri hc
          rw [updF_other _ _ _ hja] at hrj hc
          exact hInv.mutex i j hij hc ⟨hri, hrj⟩

theorem end_phase1_jobs (st : queue_state) (t : Nat) :
    (end_phase1 st t).jobs = updF st.jobs t { st.jobs t with state := JOB_IDLE, ctx := 0 } := by
  unfold end_phase1
  dsimp only
  split <;> rfl

theorem end_jobs_eq (cfg : queue_config) (st : queue_state) (t : Nat)
    (hv : (st.jobs t).state = JOB_RUNNING ∨ (st.jobs t).state = JOB_REGISTERED) :
    (job_queue_end_job cfg st t).2.jobs =
      updF st.jobs t { st.jobs t with state := JOB_IDLE, ctx := 0 } := by
  unfold job_queue_end_job
  rw [if_neg (by rcases hv with h | h <;> simp [h])]
  dsimp only
  rcases hreq : requeue_min cfg (end_phase1 st t) with _ | m
  · exact end_phase1_jobs st t
  · show (end_phase1 st t).jobs = _
    exact end_phase1_jobs st t

theorem end_reg_eq (cfg : queue_config) (st : queue_state) (t : Nat)
    (hv : (st.jobs t).state = JOB_RUNNING ∨ (st.jobs t).state = JOB_REGISTERED) :
    (job_queue_end_job cfg st t).2.registered_workers = st.registered_workers := by
  unfold job_queue_end_job
  rw [if_neg (by rcases hv with h | h <;> simp [h])]
  dsimp only
  rcases hreq : requeue_min cfg (end_phase1 st t) with _ | m
  · exact end_phase1_registered st t
  · show (end_phase1 st t).registered_workers = _
    exact end_phase1_registered st t

/-- Every thread after `end` is either untouched or signalled. -/
theorem end_threads_or (cfg : queue_config) (st : queue_state) (t : Nat) (x : Nat) :
    (job_queue_end_job cfg st t).2.threads x = st.threads x ∨
    (job_queue_end_job cfg st t).2.threads x = wakeThread (st.threads x) := by
  rcases end_phase1_spec st t with ⟨_, _, _, _, _, _, e7⟩
  have hrel : (release_my_waiters st t).threads x =
      (if x < st.registered_workers && st.waiters t x then
        wakeThread (st.threads x) else st.threads x) := rfl
  have hst3 : (end_phase1 st t).threads x = st.threads x ∨
      (end_phase1 st t).threads x = wakeThread (st.threads x) := by
    rw [e7, hrel]
    by_cases hcond : (x < st.registered_workers && st.waiters t x) = true
    · right; rw [if_pos hcond]
    · left; rw [if_neg hcond]
  unfold job_queue_end_job
  by_cases hbad : (st.jobs t).state ≠ JOB_RUNNING ∧ (st.jobs t).state ≠ JOB_REGISTERED
  · rw [if_pos hbad]
    left; rfl
  · rw [if_neg hbad]
    dsimp only
    rcases hreq : requeue_min cfg (end_phase1 st t) with _ | m
    · exact hst3
    · dsimp only
      by_cases hxm : x = m
      · subst hxm
        rw [updF_same]
        rcases hst3 with h | h <;> rw [h]
        · right; rfl
        · right; rw [wakeThread_idem]
      · rw [updF_other _ _ _ hxm]
        exact hst3

/-- A thread conflict-parked on a slot other than the ended one is not
signalled by `end`. -/
theorem end_threads_parked_elsewhere {cfg : queue_config} {st : queue_state}
    {t : Nat} (hbase : InvBase cfg st)
    (hv : (st.jobs t).state = JOB_RUNNING ∨ (st.jobs t).state = JOB_REGISTERED)
    {x cx px : Nat} {wx : Bool}
    (hx : st.threads x = ThreadSt.parkedConf cx px wx) (hpx : px ≠ t) :
    (job_queue_end_job cfg st t).2.threads x = st.threads x := by
  rcases end_phase1_spec st t with ⟨_, _, _, _, _, _, e7⟩
  have hw : st.waiters t x = false :=
    waiters_false hbase (by
      intro c' w hc
      rw [hx] at hc
      injection hc with h1 h2 h3
      exact hpx h2)
  have hst3 : (end_phase1 st t).threads x = st.threads x := by
    rw [e7]
    show (if x < st.registered_workers && st.waiters t x then
        wakeThread (st.threads x) else st.threads x) = _
    rw [hw]
    simp
  unfold job_queue_end_job
  rw [if_neg (by rcases hv with h | h <;> simp [h])]
  dsimp only
  rcases hreq : requeue_min cfg (end_phase1 st t) with _ | m
  · exact hst3
  · dsimp only
    have hxm : x ≠ m := by
      intro hcon
      subst hcon
      -- the requeue target is a capacity waiter, so its thread is parkedCap
      have hreq' : requeue_min_loop cfg (end_phase1 st t) ctx_field_addr
          (List.range (end_phase1 st t).registered_workers) none = some x := hreq
      rcases requeue_min_loop_mem hreq' with ⟨hwqe, _⟩ | hbadacc
      · rw [end_phase1_jobs st t] at hwqe
        have hxt : x ≠ t := by
          intro hcon2
          subst hcon2
          rw [updF_same] at hwqe
          exact absurd hwqe (by simp)
        rw [updF_other _ _ _ hxt] at hwqe
        have hts := hbase.ts x
        unfold threadStateOk at hts
        rw [hx] at hts
        rw [hts.1] at hwqe
        exact absurd hwqe (by simp)
      · exact absurd hbadacc (by simp)
    rw [updF_other _ _ _ hxm]
    exact hst3

theorem invNR_parkCap {cfg : queue_config} {st : queue_state} {id c : Nat}
    (hInv : InvNR cfg st)
    (hid : id < cfg.MAX_WORKERS)
    (hv : (st.jobs id).state ≠ JOB_VOID)
    (hrun : (st.jobs id).state ≠ JOB_RUNNING)
    (hth : st.threads id = ThreadSt.done) :
    InvNR cfg
      { st with
        jobs := updF st.jobs id { st.jobs id with state := JOB_WAIT_QUEUE_ENTER }
        threads := updF st.threads id (ThreadSt.parkedCap c false) } := by
  have hbase' := invBase_parkCap_rec (c := c) hInv.base hid hv hrun hth
  constructor
  · exact hbase'
  · intro i
    dsimp only
    by_cases hij : i = id
    · subst hij
      rw [updF_same]
      simp only []
      rw [← hInv.pfx i]
      constructor
      · intro _
        exact hv
      · intro _
        simp
    · rw [updF_other _ _ _ hij]
      exact hInv.pfx i
  · intro i ci pi wi hp
    dsimp only at hp ⊢
    by_cases hij : i = id
    · subst hij
      rw [updF_same] at hp
      exact absurd hp (by simp)
    · rw [updF_other _ _ _ hij] at hp
      exact hInv.pos_lt i ci pi wi hp
  · intro i j ci pi wi hij hp harm hc
    dsimp only at hp hc ⊢
    have hia : i ≠ id := by
      intro hcon
      subst hcon
      rw [updF_same] at hp
      exact absurd hp (by simp)
    rw [updF_other _ _ _ hia] at hp
    by_cases hja : j = id
    · subst hja
      exfalso
      rcases harm with ha | ha <;> simp [updF] at ha
    · have harm' : armed st j :=
        armed_of_eq (by dsimp only; exact updF_other _ _ _ hja) harm
      rw [updF_other _ _ _ hja] at hc
      rcases hInv.i6 i j ci pi wi hij hp harm' hc with h | h | ⟨cj, pj, wj, hthj, hd⟩
      · exact Or.inl h
      · exact Or.inr (Or.inl h)
      · refine Or.inr (Or.inr ⟨cj, pj, wj, ?_, hd⟩)
        rw [updF_other _ _ _ hja]
        exact hthj
  · intro i j hij hc
    dsimp only at hc ⊢
    intro ⟨hri, hrj⟩
    by_cases hia : i = id
    · subst hia
      simp [updF] at hri
    · by_cases hja : j = id
      · subst hja
        simp [updF] at hrj
      · rw [updF_other _ _ _ hia] at hri hc
        rw [updF_other _ _ _ hja] at hrj hc
        exact hInv.mutex i j hij hc ⟨hri, hrj⟩

theorem invNR_end {cfg : queue_config} {st : queue_state} {t : Nat}
    (hInv : InvNR cfg st)
    (hid : t < cfg.MAX_WORKERS)
    (hth : st.threads t = ThreadSt.done) :
    InvNR cfg (job_queue_end_job cfg st t).2 := by
  have hbase' := invBase_end hInv.base hid hth
  by_cases hbad : (st.jobs t).state ≠ JOB_RUNNING ∧ (st.jobs t).state ≠ JOB_REGISTERED
  · have hsame : (job_queue_end_job cfg st t).2 = st := by
      unfold job_queue_end_job
      rw [if_pos hbad]
    rw [hsame]
    exact hInv
  · have hv : (st.jobs t).state = JOB_RUNNING ∨ (st.jobs t).state = JOB_REGISTERED := by
      rcases not_and_or.1 hbad with h | h
      · exact Or.inl (not_not.1 h)
      · exact Or.inr (not_not.1 h)
    have hje := end_jobs_eq cfg st t hv
    have hre := end_reg_eq cfg st t hv
    -- a post-state parked thread was parked with the same ctx and position
    have hback : ∀ x cx px wx,
        (job_queue_end_job cfg st t).2.threads x = ThreadSt.parkedConf cx px wx →
        ∃ wx0, st.threads x = ThreadSt.parkedConf cx px wx0 := by
      intro x cx px wx hx
      rcases end_threads_or cfg st t x with h | h
      · exact ⟨wx, by rw [← h]; exact hx⟩
      · rw [hx] at h
        exact wake_eq_parkedConf h.symm
    constructor
    · exact hbase'
    · intro i
      rw [hje, hre]
      by_cases hit : i = t
      · subst hit
        rw [updF_same]
        simp only []
        rw [← hInv.pfx i]
        constructor
        · intro _
          rcases hv with h | h <;> rw [h] <;> simp
        · intro _
          simp
      · rw [updF_other _ _ _ hit]
        exact hInv.pfx i
    · intro i ci pi wi hp
      rcases hback i ci pi wi hp with ⟨wi0, hp0⟩
      rw [hre]
      exact hInv.pos_lt i ci pi wi0 hp0
    · intro i j ci pi wi hij hp harm hc
      rcases hback i ci pi wi hp with ⟨wi0, hp0⟩
      have hit : i ≠ t := by
        intro hcon
        subst hcon
        rw [hth] at hp0
        exact absurd hp0 (by simp)
      by_cases hjt : j = t
      · subst hjt
        exfalso
        unfold armed at harm
        rw [hje] at harm
        rcases harm with ha | ha <;> simp [updF] at ha
      · have harm' : armed st j := by
          refine armed_of_eq ?_ harm
          rw [hje]
          exact updF_other _ _ _ hjt
        rw [hje] at hc
        rw [updF_other _ _ _ hjt] at hc
        rcases hInv.i6 i j ci pi wi0 hij hp0 harm' hc with h | ⟨hpij, hwi0⟩ |
          ⟨cj, pj, wj0, hthj, hd⟩
        · exact Or.inl h
        · -- parked exactly on j ≠ t: the thread was not signalled
          have hunch := end_threads_parked_elsewhere hInv.base hv hp0
            (by rw [hpij]; exact hjt)
          rw [hunch, hp0] at hp
          injection hp with h1 h2 h3
          exact Or.inr (Or.inl ⟨hpij, by rw [← h3]; exact hwi0⟩)
        · rcases hd with hlt | ⟨hpji, hwj0⟩
          · -- j parked strictly before i: it stays parked there (maybe woken)
            rcases end_threads_or cfg st t j with h | h
            · exact Or.inr (Or.inr ⟨cj, pj, wj0, by rw [h]; exact hthj, Or.inl hlt⟩)
            · rw [hthj] at h
              exact Or.inr (Or.inr ⟨cj, pj, true, by rw [h]; rfl, Or.inl hlt⟩)
          · -- j parked exactly on i ≠ t: not signalled, flag stays false
            have hunchj := end_threads_parked_elsewhere hInv.base hv hthj
              (by rw [hpji]; exact hit)
            exact Or.inr (Or.inr ⟨cj, pj, wj0, by rw [hunchj]; exact hthj,
              Or.inr ⟨hpji, hwj0⟩⟩)
    · intro i j hij hc
      rw [hje] at hc ⊢
      intro ⟨hri, hrj⟩
      by_cases hit : i = t
      · subst hit
        simp [updF] at hri
      · by_cases hjt : j = t
        · subst hjt
          simp [updF] at hrj
        · rw [updF_other _ _ _ hit] at hri hc
          rw [updF_other _ _ _ hjt] at hrj hc
          exact hInv.mutex i j hij hc ⟨hri, hrj⟩

/-- A fresh conflict scan (from index 0) preserves the no-removal invariant:
covers the non-parking branch of `job_queue_start_job` and the resumption
from the admission-gate wait.  `stF` is the engaged state: ctx stored,
`active_workers` already incremented, this slot's thread running the scan. -/
theorem invNR_scan_engage {cfg : queue_config} {st stF : queue_state} {id c : Nat}
    (hsym : ∀ x y, cfg.conflict_test x y = cfg.conflict_test y x)
    (hInv : InvNR cfg st)
    (hjF : ∀ i, i ≠ id → stF.jobs i = st.jobs i)
    (hjIdc : (stF.jobs id).ctx = c)
    (hthF : ∀ i, i ≠ id → stF.threads i = st.threads i)
    (hregF : stF.registered_workers = st.registered_workers)
    (hnv : (st.jobs id).state ≠ JOB_VOID)
    (hnr : (st.jobs id).state ≠ JOB_RUNNING)
    (hnw : (st.jobs id).state ≠ JOB_WAIT_FOR_JOB)
    (hnp : ∀ c' p' w', st.threads id ≠ ThreadSt.parkedConf c' p' w')
    (hbase' : InvBase cfg (start_scan_step cfg stF id c 0)) :
    InvNR cfg (start_scan_step cfg stF id c 0) := by
  have hidreg : id < st.registered_workers := (hInv.pfx id).1 hnv
  unfold start_scan_step at hbase' ⊢
  rcases hscan : scanFind cfg stF id c 0 with _ | p
  all_goals rw [hscan] at hbase'
  · -- scan clean: the slot becomes RUNNING
    have hclean : ∀ m, m < st.registered_workers → m ≠ id →
        isLiveState (st.jobs m).state = true →
        cfg.conflict_test c ((st.jobs m).ctx) = false := by
      intro m h1 h2 h3
      have := scanFind_eq_none.1 hscan m (Nat.zero_le _)
        (by rw [hregF]; exact h1) h2 (by rw [hjF m h2]; exact h3)
      rw [hjF m h2] at this
      exact this
    constructor
    · exact hbase'
    · intro i
      dsimp only
      rw [hregF]
      by_cases hij : i = id
      · subst hij
        rw [updF_same]
        simp only []
        constructor
        · intro _
          exact hidreg
        · intro _
          simp
      · rw [updF_other _ _ _ hij, hjF i hij]
        exact hInv.pfx i
    · intro i ci pi wi hp
      dsimp only at hp ⊢
      rw [hregF]
      by_cases hij : i = id
      · subst hij
        rw [updF_same] at hp
        exact absurd hp (by simp)
      · rw [updF_other _ _ _ hij, hthF i hij] at hp
        exact hInv.pos_lt i ci pi wi hp
    · intro i j ci pi wi hij hp harm hc
      dsimp only at hp hc ⊢
      have hia : i ≠ id := by
        intro hcon
        subst hcon
        rw [updF_same] at hp
        exact absurd hp (by simp)
      rw [updF_other _ _ _ hia, hthF i hia] at hp
      have hifacts := parkedConf_facts hInv.base hp
      by_cases hja : j = id
      · -- the newly running slot conflicts with no parked slot: scan was clean
        subst hja
        exfalso
        rw [updF_same] at hc
        have hilive : isLiveState (st.jobs i).state = true := by
          rw [hifacts.1]; rfl
        have hireg : i < st.registered_workers :=
          parked_lt_reg hInv hp
        have := hclean i hireg hia hilive
        rw [hifacts.2] at this
        rw [hsym ci ((stF.jobs j).ctx)] at hc
        simp only [hjIdc] at hc
        rw [this] at hc
        exact absurd hc (by simp)
      · have harm' : armed st j := by
          refine armed_of_eq ?_ harm
          dsimp only
          rw [updF_other _ _ _ hja, hjF j hja]
        rw [updF_other _ _ _ hja, hjF j hja] at hc
        rcases hInv.i6 i j ci pi wi hij hp harm' hc with h | h | ⟨cj, pj, wj, hthj, hd⟩
        · exact Or.inl h
        · exact Or.inr (Or.inl h)
        · refine Or.inr (Or.inr ⟨cj, pj, wj, ?_, hd⟩)
          rw [updF_other _ _ _ hja, hthF j hja]
          exact hthj
    · intro i j hij hc
      dsimp only at hc ⊢
      intro ⟨hri, hrj⟩
      by_cases hia : i = id
      · -- new running slot i = id against running j: scan was clean
        subst hia
        rw [updF_other _ _ _ (fun hcon => hij hcon.symm), hjF j (fun hcon => hij hcon.symm)]
          at hrj hc
        rw [updF_same] at hc
        have hjlive : isLiveState (st.jobs j).state = true := by
          rw [hrj]; rfl
        have hjreg : j < st.registered_workers :=
          armed_lt_reg hInv (Or.inl hrj)
        have := hclean j hjreg (fun hcon => hij hcon.symm) hjlive
        simp only [hjIdc] at hc
        rw [this] at hc
        exact absurd hc (by simp)
      · by_cases hja : j = id
        · subst hja
          rw [updF_other _ _ _ hia, hjF i hia] at hri hc
          rw [updF_same] at hc
          have hilive : isLiveState (st.jobs i).state = true := by
            rw [hri]; rfl
          have hireg : i < st.registered_workers :=
            armed_lt_reg hInv (Or.inl hri)
          have := hclean i hireg hia hilive
          simp only [hjIdc] at hc
          rw [hsym ((st.jobs i).ctx) c, this] at hc
          exact absurd hc (by simp)
        · rw [updF_other _ _ _ hia, hjF i hia] at hri hc
          rw [updF_other _ _ _ hja, hjF j hja] at hrj hc
          exact hInv.mutex i j hij hc ⟨hri, hrj⟩
  · -- scan parked at p
    rcases scanFind_eq_some hscan with ⟨_, hpregF, hpid, hpliveF, hpconfF, hfirstF⟩
    have hpreg : p < st.registered_workers := by rw [hregF] at hpregF; exact hpregF
    have hfirst : ∀ m, m < p → m ≠ id → isLiveState (st.jobs m).state = true →
        cfg.conflict_test c ((st.jobs m).ctx) = false := by
      intro m h1 h2 h3
      have := hfirstF m (Nat.zero_le _) h1 h2 (by rw [hjF m h2]; exact h3)
      rw [hjF m h2] at this
      exact this
    constructor
    · exact hbase'
    · intro i
      dsimp only
      rw [hregF]
      by_cases hij : i = id
      · subst hij
        rw [updF_same]
        simp only []
        constructor
        · intro _
          exact hidreg
        · intro _
          simp
      · rw [updF_other _ _ _ hij, hjF i hij]
        exact hInv.pfx i
    · intro i ci pi wi hp
      dsimp only at hp ⊢
      rw [hregF]
      by_cases hij : i = id
      · subst hij
        rw [updF_same] at hp
        injection hp with h1 h2 h3
        omega
      · rw [updF_other _ _ _ hij, hthF i hij] at hp
        exact hInv.pos_lt i ci pi wi hp
    · intro i j ci pi wi hij hp harm hc
      dsimp only at hp hc ⊢
      by_cases hia : i = id
      · -- the newly parked slot: every conflicting armed slot is at or
        -- beyond the park position, by first-ness of the scan
        subst hia
        rw [updF_same] at hp
        injection hp with h1 h2 h3
        subst h1; subst h2; subst h3
        have hja : j ≠ i := fun hcon => hij hcon.symm
        have harm' : armed st j := by
          refine armed_of_eq ?_ harm
          dsimp only
          rw [updF_other _ _ _ hja, hjF j hja]
        rw [updF_other _ _ _ hja, hjF j hja] at hc
        rcases Nat.lt_trichotomy j p with hlt | heq | hgt
        · exfalso
          have := hfirst j hlt hja (armed_live harm')
          rw [this] at hc
          exact absurd hc (by simp)
        · exact Or.inr (Or.inl ⟨heq.symm, rfl⟩)
        · exact Or.inl hgt
      · rw [updF_other _ _ _ hia, hthF i hia] at hp
        have hifacts := parkedConf_facts hInv.base hp
        by_cases hja : j = id
        · -- the newly parked slot seen as armed: it parks at or before any
          -- conflicting parked slot
          subst hja
          rw [updF_same] at hc
          simp only [hjIdc] at hc
          have hilive : isLiveState (st.jobs i).state = true := by
            rw [hifacts.1]; rfl
          have hireg : i < st.registered_workers := parked_lt_reg hInv hp
          have hci : cfg.conflict_test c ((st.jobs i).ctx) = true := by
            rw [hsym]
            rw [hifacts.2]
            exact hc
          rcases Nat.lt_trichotomy i p with hlt | heq | hgt
          · exfalso
            have := hfirst i hlt hia hilive
            rw [this] at hci
            exact absurd hci (by simp)
          · refine Or.inr (Or.inr ⟨c, p, false, ?_, Or.inr ⟨heq.symm, rfl⟩⟩)
            rw [updF_same]
          · refine Or.inr (Or.inr ⟨c, p, false, ?_, Or.inl hgt⟩)
            rw [updF_same]
        · have harm' : armed st j := by
            refine armed_of_eq ?_ harm
            dsimp only
            rw [updF_other _ _ _ hja, hjF j hja]
          rw [updF_other _ _ _ hja, hjF j hja] at hc
          rcases hInv.i6 i j ci pi wi hij hp harm' hc with h | h | ⟨cj, pj, wj, hthj, hd⟩
          · exact Or.inl h
          · exact Or.inr (Or.inl h)
          · refine Or.inr (Or.inr ⟨cj, pj, wj, ?_, hd⟩)
            rw [updF_other _ _ _ hja, hthF j hja]
            exact hthj
    · intro i j hij hc
      dsimp only at hc ⊢
      intro ⟨hri, hrj⟩
      by_cases hia : i = id
      · subst hia
        simp [updF] at hri
      · by_cases hja : j = id
        · subst hja
          simp [updF] at hrj
        · rw [updF_other _ _ _ hia, hjF i hia] at hri hc
          rw [updF_other _ _ _ hja, hjF j hja] at hrj hc
          exact hInv.mutex i j hij hc ⟨hri, hrj⟩

/-- Resuming the conflict scan at `p + 1` after being signalled out of the
park on slot `p` preserves the no-removal invariant.  Slots at or below `p`
are not re-tested; the pre-state scan-progress relation accounts for them. -/
theorem invNR_scan_resume {cfg : queue_config} {st stF : queue_state} {id c p : Nat}
    (hsym : ∀ x y, cfg.conflict_test x y = cfg.conflict_test y x)
    (hInv : InvNR cfg st)
    (hpark : st.threads id = ThreadSt.parkedConf c p true)
    (hjF : ∀ i, stF.jobs i = st.jobs i)
    (hthF : ∀ i, i ≠ id → stF.threads i = st.threads i)
    (hregF : stF.registered_workers = st.registered_workers)
    (hbase' : InvBase cfg (start_scan_step cfg stF id c (p + 1))) :
    InvNR cfg (start_scan_step cfg stF id c (p + 1)) := by
  have hidreg : id < st.registered_workers := parked_lt_reg hInv hpark
  have hfacts := parkedConf_facts hInv.base hpark
  have hctx : (st.jobs id).ctx = c := hfacts.2
  have hpre : ∀ j, j ≠ id → armed st j →
      cfg.conflict_test c ((st.jobs j).ctx) = true →
      p < j ∨ ∃ cj pj wj, st.threads j = ThreadSt.parkedConf cj pj wj ∧
        (pj < id ∨ (pj = id ∧ wj = false)) := by
    intro j hj harm hc
    rcases hInv.i6 id j c p true (fun e => hj e.symm) hpark harm hc with h1 | h1 | h1
    · exact Or.inl h1
    · exact absurd h1.2 (by simp)
    · exact Or.inr h1
  unfold start_scan_step at hbase' ⊢
  rcases hscan : scanFind cfg stF id c (p + 1) with _ | q
  all_goals rw [hscan] at hbase'
  · -- scan clean from p+1: the slot becomes RUNNING
    have hclean : ∀ m, p < m → m < st.registered_workers → m ≠ id →
        isLiveState (st.jobs m).state = true →
        cfg.conflict_test c ((st.jobs m).ctx) = false := by
      intro m h0 h1 h2 h3
      have := scanFind_eq_none.1 hscan m (by omega)
        (by rw [hregF]; exact h1) h2 (by rw [hjF m]; exact h3)
      rw [hjF m] at this
      exact this
    have hgone : ∀ j, j ≠ id → armed st j →
        cfg.conflict_test c ((st.jobs j).ctx) = true →
        ∃ cj pj wj, st.threads j = ThreadSt.parkedConf cj pj wj ∧
          (pj < id ∨ (pj = id ∧ wj = false)) := by
      intro j hj harm hc
      rcases hpre j hj harm hc with hlt | hcb
      · exfalso
        have := hclean j hlt (armed_lt_reg hInv harm) hj (armed_live harm)
        rw [this] at hc
        exact absurd hc (by simp)
      · exact hcb
    constructor
    · exact hbase'
    · intro i
      dsimp only
      rw [hregF]
      by_cases hij : i = id
      · subst hij
        rw [updF_same]
        simp only []
        constructor
        · intro _
          exact hidreg
        · intro _
          simp
      · rw [updF_other _ _ _ hij, hjF i]
        exact hInv.pfx i
    · intro i ci pi wi hp
      dsimp only at hp ⊢
      rw [hregF]
      by_cases hij : i = id
      · subst hij
        rw [updF_same] at hp
        exact absurd hp (by simp)
      · rw [updF_other _ _ _ hij, hthF i hij] at hp
        exact hInv.pos_lt i ci pi wi hp
    · intro i j ci pi wi hij hp harm hc
      dsimp only at hp hc ⊢
      have hia : i ≠ id := by
        intro hcon
        subst hcon
        rw [updF_same] at hp
        exact absurd hp (by simp)
      rw [updF_other _ _ _ hia, hthF i hia] at hp
      have hifacts := parkedConf_facts hInv.base hp
      by_cases hja : j = id
      · -- the resumed slot is newly RUNNING: the pre-state scan-progress
        -- relation (with the woken flag set) leaves only its (c) branch
        subst hja
        rw [updF_same] at hc
        simp only [hjF, hctx] at hc
        have hci : cfg.conflict_test c ((st.jobs i).ctx) = true := by
          rw [hifacts.2, hsym]
          exact hc
        rcases hgone i hia (Or.inr hifacts.1) hci with ⟨cj, pj, wj, hthj, hd⟩
        rw [hp] at hthj
        injection hthj with e1 e2 e3
        subst e1; subst e2; subst e3
        rcases hd with hd | hd
        · exact Or.inl hd
        · exact Or.inr (Or.inl hd)
      · have harm' : armed st j := by
          refine armed_of_eq ?_ harm
          dsimp only
          rw [updF_other _ _ _ hja, hjF j]
        rw [updF_other _ _ _ hja, hjF j] at hc
        rcases hInv.i6 i j ci pi wi hij hp harm' hc with h | h | ⟨cj, pj, wj, hthj, hd⟩
        · exact Or.inl h
        · exact Or.inr (Or.inl h)
        · refine Or.inr (Or.inr ⟨cj, pj, wj, ?_, hd⟩)
          rw [updF_other _ _ _ hja, hthF j hja]
          exact hthj
    · intro i j hij hc
      dsimp only at hc ⊢
      intro ⟨hri, hrj⟩
      by_cases hia : i = id
      · subst hia
        rw [updF_other _ _ _ (fun hcon => hij hcon.symm), hjF j] at hrj hc
        rw [updF_same] at hc
        simp only [hjF, hctx] at hc
        rcases hgone j (fun hcon => hij hcon.symm) (Or.inl hrj) hc
          with ⟨cj, pj, wj, hthj, _⟩
        have := (parkedConf_facts hInv.base hthj).1
        rw [hrj] at this
        exact absurd this (by simp)
      · by_cases hja : j = id
        · subst hja
          rw [updF_other _ _ _ hia, hjF i] at hri hc
          rw [updF_same] at hc
          simp only [hjF, hctx] at hc
          have hci : cfg.conflict_test c ((st.jobs i).ctx) = true := by
            rw [hsym]
            exact hc
          rcases hgone i hia (Or.inl hri) hci with ⟨cj, pj, wj, hthj, _⟩
          have := (parkedConf_facts hInv.base hthj).1
          rw [hri] at this
          exact absurd this (by simp)
        · rw [updF_other _ _ _ hia, hjF i] at hri hc
          rw [updF_other _ _ _ hja, hjF j] at hrj hc
          exact hInv.mutex i j hij hc ⟨hri, hrj⟩
  · -- scan parked again, at q ≥ p + 1
    rcases scanFind_eq_some hscan with ⟨hq1, hq2F, hq3, _, _, hfirstF⟩
    have hq2 : q < st.registered_workers := by rw [hregF] at hq2F; exact hq2F
    have hfirst : ∀ m, p < m → m < q → m ≠ id →
        isLiveState (st.jobs m).state = true →
        cfg.conflict_test c ((st.jobs m).ctx) = false := by
      intro m h0 h1 h2 h3
      have := hfirstF m (by omega) h1 h2 (by rw [hjF m]; exact h3)
      rw [hjF m] at this
      exact this
    have hplace : ∀ j, j ≠ id → armed st j →
        cfg.conflict_test c ((st.jobs j).ctx) = true →
        q ≤ j ∨ ∃ cj pj wj, st.threads j = ThreadSt.parkedConf cj pj wj ∧
          (pj < id ∨ (pj = id ∧ wj = false)) := by
      intro j hj harm hc
      rcases hpre j hj harm hc with hlt | hcb
      · rcases Nat.lt_or_ge j q with h1 | h1
        · exfalso
          have := hfirst j hlt h1 hj (armed_live harm)
          rw [this] at hc
          exact absurd hc (by simp)
        · exact Or.inl h1
      · exact Or.inr hcb
    constructor
    · exact hbase'
    · intro i
      dsimp only
      rw [hregF]
      by_cases hij : i = id
      · subst hij
        rw [updF_same]
        simp only []
        constructor
        · intro _
          exact hidreg
        · intro _
          simp
      · rw [updF_other _ _ _ hij, hjF i]
        exact hInv.pfx i
    · intro i ci pi wi hp
      dsimp only at hp ⊢
      rw [hregF]
      by_cases hij : i = id
      · subst hij
        rw [updF_same] at hp
        injection hp with h1 h2 h3
        have := hInv.base.reg_le
        omega
      · rw [updF_other _ _ _ hij, hthF i hij] at hp
        exact hInv.pos_lt i ci pi wi hp
    · intro i j ci pi wi hij hp harm hc
      dsimp only at hp hc ⊢
      by_cases hia : i = id
      · -- the re-parked slot, now at q
        subst hia
        rw [updF_same] at hp
        injection hp with h1 h2 h3
        subst h1; subst h2; subst h3
        have hja : j ≠ i := fun hcon => hij hcon.symm
        have harm' : armed st j := by
          refine armed_of_eq ?_ harm
          dsimp only
          rw [updF_other _ _ _ hja, hjF j]
        rw [updF_other _ _ _ hja, hjF j] at hc
        rcases hplace j hja harm' hc with hle | ⟨cj, pj, wj, hthj, hd⟩
        · rcases Nat.eq_or_lt_of_le hle with heq | hlt
          · exact Or.inr (Or.inl ⟨heq, rfl⟩)
          · exact Or.inl hlt
        · refine Or.inr (Or.inr ⟨cj, pj, wj, ?_, hd⟩)
          rw [updF_other _ _ _ hja, hthF j hja]
          exact hthj
      · rw [updF_other _ _ _ hia, hthF i hia] at hp
        have hifacts := parkedConf_facts hInv.base hp
        by_cases hja : j = id
        · -- the re-parked slot seen as armed
          subst hja
          rw [updF_same] at hc
          simp only [hjF, hctx] at hc
          have hci : cfg.conflict_test c ((st.jobs i).ctx) = true := by
            rw [hifacts.2, hsym]
            exact hc
          rcases hplace i hia (Or.inr hifacts.1) hci with hle | ⟨cj, pj, wj, hthj, hd⟩
          · rcases Nat.eq_or_lt_of_le hle with heq | hlt
            · refine Or.inr (Or.inr ⟨c, q, false, ?_, Or.inr ⟨heq, rfl⟩⟩)
              rw [updF_same]
            · refine Or.inr (Or.inr ⟨c, q, false, ?_, Or.inl hlt⟩)
              rw [updF_same]
          · rw [hp] at hthj
            injection hthj with e1 e2 e3
            subst e1; subst e2; subst e3
            rcases hd with hd | hd
            · exact Or.inl hd
            · exact Or.inr (Or.inl hd)
        · have harm' : armed st j := by
            refine armed_of_eq ?_ harm
            dsimp only
            rw [updF_other _ _ _ hja, hjF j]
          rw [updF_other _ _ _ hja, hjF j] at hc
          rcases hInv.i6 i j ci pi wi hij hp harm' hc with h | h | ⟨cj, pj, wj, hthj, hd⟩
          · exact Or.inl h
          · exact Or.inr (Or.inl h)
          · refine Or.inr (Or.inr ⟨cj, pj, wj, ?_, hd⟩)
            rw [updF_other _ _ _ hja, hthF j hja]
            exact hthj
    · intro i j hij hc
      dsimp only at hc ⊢
      intro ⟨hri, hrj⟩
      by_cases hia : i = id
      · subst hia
        simp [updF] at hri
      · by_cases hja : j = id
        · subst hja
          simp [updF] at hrj
        · rw [updF_other _ _ _ hia, hjF i] at hri hc
          rw [updF_other _ _ _ hja, hjF j] at hrj hc
          exact hInv.mutex i j hij hc ⟨hri, hrj⟩

/-- `job_queue_start_job` preserves the no-removal invariant (first atomic
segment): no-op, capacity park, or engage-and-scan. -/
theorem invNR_startCall {cfg : queue_config} {st : queue_state} {id c : Nat}
    (hsym : ∀ x y, cfg.conflict_test x y = cfg.conflict_test y x)
    (hInv : InvNR cfg st)
    (hid : id < cfg.MAX_WORKERS)
    (hv : (st.jobs id).state ≠ JOB_VOID)
    (hth : st.threads id = ThreadSt.done) :
    InvNR cfg (job_queue_start_job cfg st id c).2 := by
  have hbase' := invBase_startCall (c := c) hInv.base hid hv hth
  have htsid : (st.jobs id).state ≠ JOB_WAIT_QUEUE_ENTER ∧
      (st.jobs id).state ≠ JOB_WAIT_FOR_JOB := by
    have h := hInv.base.ts id
    unfold threadStateOk at h
    rw [hth] at h
    exact h
  unfold job_queue_start_job at hbase' ⊢
  by_cases hrun : (st.jobs id).state = JOB_RUNNING
  · rw [if_pos hrun]
    exact hInv
  · rw [if_neg hrun] at hbase' ⊢
    by_cases hfull : st.active_workers = cfg.max_concurrent_workers
    · rw [if_pos hfull]
      exact invNR_parkCap (c := c) hInv hid hv hrun hth
    · rw [if_neg hfull] at hbase' ⊢
      show InvNR cfg (start_engage cfg st id c)
      unfold start_engage
      refine invNR_scan_engage hsym hInv ?_ ?_ ?_ rfl hv hrun htsid.2 ?_ ?_
      · intro i hi
        exact updF_other _ _ _ hi
      · exact congrArg job_worker.ctx (updF_same _ _ _)
      · intro i _
        rfl
      · intro c' p' w' hcon
        rw [hth] at hcon
        exact absurd hcon (by simp)
      · exact hbase'

/-- Resuming from the admission-gate park preserves the no-removal
invariant: the thread re-engages and scans from index 0. -/
theorem invNR_resumeCap {cfg : queue_config} {st : queue_state} {id c : Nat}
    (hsym : ∀ x y, cfg.conflict_test x y = cfg.conflict_test y x)
    (hInv : InvNR cfg st)
    (h : st.threads id = ThreadSt.parkedCap c true) :
    InvNR cfg (start_resume_capacity cfg st id c) := by
  have hbase' := invBase_resumeCap hInv.base h
  have hstid : (st.jobs id).state = JOB_WAIT_QUEUE_ENTER := by
    have hts := hInv.base.ts id
    unfold threadStateOk at hts
    rw [h] at hts
    exact hts
  unfold start_resume_capacity start_engage at hbase' ⊢
  refine invNR_scan_engage hsym hInv ?_ ?_ ?_ rfl
    (by rw [hstid]; simp) (by rw [hstid]; simp) (by rw [hstid]; simp) ?_ hbase'
  · intro i hi
    exact updF_other _ _ _ hi
  · exact congrArg job_worker.ctx (updF_same _ _ _)
  · intro i hi
    exact updF_other _ _ _ hi
  · intro c' p' w' hcon
    rw [h] at hcon
    exact absurd hcon (by simp)

/-- Resuming from a conflict park preserves the no-removal invariant: the
waiter bit on the parking slot is cleared and the scan continues past it. -/
theorem invNR_resumeConf {cfg : queue_config} {st : queue_state} {id c p : Nat}
    (hsym : ∀ x y, cfg.conflict_test x y = cfg.conflict_test y x)
    (hInv : InvNR cfg st)
    (h : st.threads id = ThreadSt.parkedConf c p true) :
    InvNR cfg (start_resume_conflict cfg st id c p) := by
  have hbase' := invBase_resumeConf hInv.base h
  unfold start_resume_conflict at hbase' ⊢
  refine invNR_scan_resume hsym hInv h (fun i => rfl) ?_ rfl hbase'
  intro i hi
  exact updF_other _ _ _ hi

/-- A freshly created queue satisfies the no-removal invariant. -/
theorem invNR_create (MW max_workers : Nat) (ct : Nat → Nat → Bool)
    (cmp : Nat → Nat → Int) :
    InvNR (job_queue_create MW max_workers ct cmp).1
      (job_queue_create MW max_workers ct cmp).2 := by
  refine ⟨invBase_create MW max_workers ct cmp, ?_, ?_, ?_, ?_⟩
  · intro i
    constructor
    · intro hne
      exact absurd rfl hne
    · intro hlt
      exact absurd hlt (Nat.not_lt_zero i)
  · intro i ci pi wi hp
    exact ThreadSt.noConfusion hp
  · intro i j ci pi wi _ hp _ _
    exact ThreadSt.noConfusion hp
  · intro i j _ _
    intro ⟨hri, _⟩
    exact JobState.noConfusion hri

/-- Every transition of a removal-free execution preserves the no-removal
invariant, given a symmetric conflict predicate. -/
theorem invNR_step {cfg : queue_config} {st st' : queue_state}
    (hsym : ∀ x y, cfg.conflict_test x y = cfg.conflict_test y x)
    (hInv : InvNR cfg st) (hstep : Step cfg false st st') : InvNR cfg st' := by
  cases hstep with
  | newWorker ty id st' h => exact invNR_newWorker hInv h
  | removeWorker id har hid hst hth => exact Bool.noConfusion har
  | registerJob id c hid hv hth => exact invNR_register hInv hid hv hth
  | startCall id c hid hv hth => exact invNR_startCall hsym hInv hid hv hth
  | resumeCap id c h => exact invNR_resumeCap hsym hInv h
  | resumeConf id c p h => exact invNR_resumeConf hsym hInv h
  | endCall id hid hv hth => exact invNR_end hInv hid hth

/-- The no-removal invariant holds in every state reachable without
`job_queue_remove_worker`, from any state satisfying it. -/
theorem invNR_reachable {cfg : queue_config} {st0 st : queue_state}
    (hsym : ∀ x y, cfg.conflict_test x y = cfg.conflict_test y x)
    (h0 : InvNR cfg st0) (h : Reachable cfg false st0 st) : InvNR cfg st := by
  induction h with
  | init => exact h0
  | step _ hstep ih => exact invNR_step hsym ih hstep

/-- C1 (amended): mutual exclusion of conflicting running slots holds for
executions without `job_queue_remove_worker` and a symmetric
`conflict_test`: in every state reachable from a fresh queue, no two
distinct slots whose stored ctx values conflict are both `JOB_RUNNING`.
(The claim's broader "live" notion is refuted by `C1_counterexample`, and
worker removal breaks even this form by shrinking the scan bound
`registered_workers` below a live slot's index.) -/
theorem C1_amended_running_mutual_exclusion {MW mx : Nat}
    {ct : Nat → Nat → Bool} {cmp : Nat → Nat → Int} {st : queue_state}
    (hsym : ∀ x y, ct x y = ct y x)
    (hreach : Reachable (job_queue_create MW mx ct cmp).1 false
      (job_queue_create MW mx ct cmp).2 st)
    (i j : Nat) (hij : i ≠ j)
    (hc : ct ((st.jobs i).ctx) ((st.jobs j).ctx) = true) :
    ¬((st.jobs i).state = JOB_RUNNING ∧ (st.jobs j).state = JOB_RUNNING) := by
  have hInv := invNR_reachable hsym (invNR_create MW mx ct cmp) hreach
  exact hInv.mutex i j hij hc

/-- Witness for the amended C1 theorem at a concrete symmetric
configuration and the initial reachable state. -/
theorem C1_amended_witness :
    ¬((((job_queue_create 2 2 (fun _ _ => true) natCmp).2.jobs 0).state = JOB_RUNNING) ∧
      (((job_queue_create 2 2 (fun _ _ => true) natCmp).2.jobs 1).state = JOB_RUNNING)) :=
  @C1_amended_running_mutual_exclusion 2 2 (fun _ _ => true) natCmp
    (job_queue_create 2 2 (fun _ _ => true) natCmp).2
    (fun _ _ => rfl) Reachable.init 0 1 (by decide) (by rfl)
